import Mathlib

/-!
Verification development for the JasonDumper JSON encoder
(src/include/JasonDumper.h).

Jason values are modelled as an inductive tree (the input contract of the
dumper: type tag, child access, scalar extractors).  The dumper itself is
translated with explicit state passing: the output buffer is a list of byte
values (Nat, each < 256 for real inputs), the indentation depth a Nat.  A
C++ throw becomes an error result carrying the state at the moment of the
throw (the buffer keeps whatever was already appended).  C++ signed 64-bit
division and remainder truncate toward zero and are rendered as Int.tdiv /
Int.tmod; unsigned arithmetic is plain Nat arithmetic.

The external double-to-text primitive fpconv_dtoa is declared but not
defined in this repository (it is an external collaborator per the spec).
Modelled from the spec: a Double node carries the outcome of the
isnan/isfinite classification as a Bool together with the text that the
external shortest-round-trip primitive would produce for it; the dumper
copies that text verbatim for finite values, exactly as the code copies the
fpconv_dtoa output.
-/

namespace JasonVerify


/-- Error kinds of JasonException that the dumper can raise. -/
inductive JasonException where
  | InvalidUtf8Sequence
  | NoJsonEquivalent
  | InternalError
deriving DecidableEq, Repr

/-- The tagged value tree consumed by the dumper (JasonSlice's type tags and
accessors).  Array children and object members are in storage order. -/
inductive JValue where
  | None
  | Null
  | Bool (b : Bool)
  | Array (elems : List JValue)
  | Object (members : List (JValue × JValue))
  | Double (nonFinite : Bool) (text : List Nat)
  | UTCDate
  | External (slice : JValue)
  | MinKey
  | MaxKey
  | Int (v : Int)
  | UInt (v : Nat)
  | SmallInt (v : Int)
  | String (bytes : List Nat)
  | Binary
  | BCD
  | Custom

/-- The dumper's mutable state: the bound output buffer (a byte sink,
append-only) and the current indentation depth. -/
structure DumpState where
  buffer : List Nat
  indentation : Nat
deriving DecidableEq, Repr

/-- Result of a dumper operation: either the state after it, or the raised
exception together with the state at the moment of the throw. -/
abbrev DM := Except (JasonException × DumpState) DumpState

/-- The two strategies of enum UnsupportedTypeStrategy. -/
inductive UnsupportedTypeStrategy where
  | StrategyNullify
  | StrategyFail
deriving DecidableEq, Repr

/-- Type of the interception hook (setCallback): it receives the buffer, the
node and its parent, may rewrite the buffer, and reports whether it fully
handled the node. -/
abbrev JasonCallback := List Nat → JValue → Option JValue → (List Nat × Bool)

/-- Configuration fixed at dumper construction: the PrettyPrint template
parameter, the strategy, and the optional callback. -/
structure DumperConfig where
  prettyPrint : Bool
  strategy : UnsupportedTypeStrategy
  callback : Option JasonCallback

/-- The check at the top of internalDump: if a callback is set, run it on the
buffer; the Bool is the value returned by the callback (false if no callback
is set). -/
def cbStep (cb : Option JasonCallback) (slice : JValue) (parent : Option JValue)
    (st : DumpState) : DumpState × Bool :=
  match cb with
  | Option.none => (st, false)
  | Option.some f =>
      (⟨(f st.buffer slice parent).1, st.indentation⟩, (f st.buffer slice parent).2)

/-- The fixed 256-entry escape classification table of dumpString: 117
is the letter u (generic escape), 98 b, 116 t, 110 n, 102 f, 114 r,
34 the double quote, 47 the forward slash, 92 the backslash; 0 means
pass-through. -/
def EscapeTable : List Nat :=
  [117, 117, 117, 117, 117, 117, 117, 117, 98, 116, 110, 117, 102, 114, 117, 117,
   117, 117, 117, 117, 117, 117, 117, 117, 117, 117, 117, 117, 117, 117, 117, 117,
   0, 0, 34, 0, 0, 0, 0, 0, 0, 0, 0, 0, 0, 0, 0, 47,
   0, 0, 0, 0, 0, 0, 0, 0, 0, 0, 0, 0, 0, 0, 0, 0,
   0, 0, 0, 0, 0, 0, 0, 0, 0, 0, 0, 0, 0, 0, 0, 0,
   0, 0, 0, 0, 0, 0, 0, 0, 0, 0, 0, 0, 92, 0, 0, 0,
   0, 0, 0, 0, 0, 0, 0, 0, 0, 0, 0, 0, 0, 0, 0, 0,
   0, 0, 0, 0, 0, 0, 0, 0, 0, 0, 0, 0, 0, 0, 0, 0,
   0, 0, 0, 0, 0, 0, 0, 0, 0, 0, 0, 0, 0, 0, 0, 0,
   0, 0, 0, 0, 0, 0, 0, 0, 0, 0, 0, 0, 0, 0, 0, 0,
   0, 0, 0, 0, 0, 0, 0, 0, 0, 0, 0, 0, 0, 0, 0, 0,
   0, 0, 0, 0, 0, 0, 0, 0, 0, 0, 0, 0, 0, 0, 0, 0,
   0, 0, 0, 0, 0, 0, 0, 0, 0, 0, 0, 0, 0, 0, 0, 0,
   0, 0, 0, 0, 0, 0, 0, 0, 0, 0, 0, 0, 0, 0, 0, 0,
   0, 0, 0, 0, 0, 0, 0, 0, 0, 0, 0, 0, 0, 0, 0, 0,
   0, 0, 0, 0, 0, 0, 0, 0, 0, 0, 0, 0, 0, 0, 0, 0]

/-- One hex digit as in dumpString: 48 + i for i < 10, otherwise the
uppercase letter 65 + i - 10. -/
def hexUp (i : Nat) : Nat :=
  if i < 10 then 48 + i else 65 + i - 10

/-- Bytes appended by the ASCII branch of dumpString for one byte c with the
high bit clear: the table lookup, then either pass-through, the two-byte
short escape, or the six-byte generic 5Cu0030 0030 hex escape.  The pushes
of the source are consecutive buffer appends, collected here into one
list. -/
def escapeAscii (c : Nat) : List Nat :=
  match EscapeTable.getD c 0 with
  | 0 => [c]
  | esc =>
      [92, esc] ++
        (if esc = 117 then
          [48, 48, hexUp ((c &&& 0xf0) >>> 4), hexUp (c &&& 0x0f)]
        else [])

/-- The body scan of dumpString over the remaining input bytes.  The source
walks a pointer p toward the end e; here the remaining bytes are a list.
The bounds checks p + 1 >= e, p + 2 >= e, p + 3 >= e become checks that the
list after the current byte holds fewer than 1, 2, 3 further bytes.  A byte
with the high bit set matching no lead-byte pattern falls through every
branch of the source (only ++p executes), i.e. it is skipped. -/
def dumpString (s : List Nat) (st : DumpState) : DM :=
  match s with
  | [] => Except.ok st
  | c :: rest =>
      if c &&& 0x80 = 0 then
        dumpString rest { st with buffer := st.buffer ++ escapeAscii c }
      else if c &&& 0xe0 = 0xc0 then
        if rest.length < 1 then Except.error (JasonException.InvalidUtf8Sequence, st)
        else dumpString (rest.drop 1) { st with buffer := st.buffer ++ c :: rest.take 1 }
      else if c &&& 0xf0 = 0xe0 then
        if rest.length < 2 then Except.error (JasonException.InvalidUtf8Sequence, st)
        else dumpString (rest.drop 2) { st with buffer := st.buffer ++ c :: rest.take 2 }
      else if c &&& 0xf8 = 0xf0 then
        if rest.length < 3 then Except.error (JasonException.InvalidUtf8Sequence, st)
        else dumpString (rest.drop 3) { st with buffer := st.buffer ++ c :: rest.take 3 }
      else
        dumpString rest st
termination_by s.length
decreasing_by
  all_goals simp [List.length_drop]
  all_goals omega

/-- Bytes appended for an UnsignedInt (uint64_t) value: the threshold
cascade of dumpInteger, most significant digit first, thresholds from
10 to the 19th power down to 10, then the unconditional units digit.
Byte values are 48 plus the digit. -/
def dumpUIntBody (v : Nat) : List Nat :=
  (if 10000000000000000000 ≤ v then [48 + v / 10000000000000000000 % 10] else []) ++
  (if 1000000000000000000 ≤ v then [48 + v / 1000000000000000000 % 10] else []) ++
  (if 100000000000000000 ≤ v then [48 + v / 100000000000000000 % 10] else []) ++
  (if 10000000000000000 ≤ v then [48 + v / 10000000000000000 % 10] else []) ++
  (if 1000000000000000 ≤ v then [48 + v / 1000000000000000 % 10] else []) ++
  (if 100000000000000 ≤ v then [48 + v / 100000000000000 % 10] else []) ++
  (if 10000000000000 ≤ v then [48 + v / 10000000000000 % 10] else []) ++
  (if 1000000000000 ≤ v then [48 + v / 1000000000000 % 10] else []) ++
  (if 100000000000 ≤ v then [48 + v / 100000000000 % 10] else []) ++
  (if 10000000000 ≤ v then [48 + v / 10000000000 % 10] else []) ++
  (if 1000000000 ≤ v then [48 + v / 1000000000 % 10] else []) ++
  (if 100000000 ≤ v then [48 + v / 100000000 % 10] else []) ++
  (if 10000000 ≤ v then [48 + v / 10000000 % 10] else []) ++
  (if 1000000 ≤ v then [48 + v / 1000000 % 10] else []) ++
  (if 100000 ≤ v then [48 + v / 100000 % 10] else []) ++
  (if 10000 ≤ v then [48 + v / 10000 % 10] else []) ++
  (if 1000 ≤ v then [48 + v / 1000 % 10] else []) ++
  (if 100 ≤ v then [48 + v / 100 % 10] else []) ++
  (if 10 ≤ v then [48 + v / 10 % 10] else []) ++
  [48 + v % 10]

/-- The magnitude text 9223372036854775808 appended for INT64_MIN after the
sign (19 digit bytes). -/
def int64MinMagBytes : List Nat :=
  [57, 50, 50, 51, 51, 55, 50, 48, 51, 54, 56, 53, 52, 55, 55, 53, 56, 48, 56]

/-- The signed threshold cascade of dumpInteger applied to w, the value
after the unconditional negation v = -v of the source.  Division and
remainder truncate toward zero as in C++; each pushed char is the int
48 plus remainder, converted to a byte. -/
def dumpIntCascade (w : Int) : List Nat :=
  (if 1000000000000000000 ≤ w then [(48 + (w.tdiv 1000000000000000000).tmod 10).toNat] else []) ++
  (if 100000000000000000 ≤ w then [(48 + (w.tdiv 100000000000000000).tmod 10).toNat] else []) ++
  (if 10000000000000000 ≤ w then [(48 + (w.tdiv 10000000000000000).tmod 10).toNat] else []) ++
  (if 1000000000000000 ≤ w then [(48 + (w.tdiv 1000000000000000).tmod 10).toNat] else []) ++
  (if 100000000000000 ≤ w then [(48 + (w.tdiv 100000000000000).tmod 10).toNat] else []) ++
  (if 10000000000000 ≤ w then [(48 + (w.tdiv 10000000000000).tmod 10).toNat] else []) ++
  (if 1000000000000 ≤ w then [(48 + (w.tdiv 1000000000000).tmod 10).toNat] else []) ++
  (if 100000000000 ≤ w then [(48 + (w.tdiv 100000000000).tmod 10).toNat] else []) ++
  (if 10000000000 ≤ w then [(48 + (w.tdiv 10000000000).tmod 10).toNat] else []) ++
  (if 1000000000 ≤ w then [(48 + (w.tdiv 1000000000).tmod 10).toNat] else []) ++
  (if 100000000 ≤ w then [(48 + (w.tdiv 100000000).tmod 10).toNat] else []) ++
  (if 10000000 ≤ w then [(48 + (w.tdiv 10000000).tmod 10).toNat] else []) ++
  (if 1000000 ≤ w then [(48 + (w.tdiv 1000000).tmod 10).toNat] else []) ++
  (if 100000 ≤ w then [(48 + (w.tdiv 100000).tmod 10).toNat] else []) ++
  (if 10000 ≤ w then [(48 + (w.tdiv 10000).tmod 10).toNat] else []) ++
  (if 1000 ≤ w then [(48 + (w.tdiv 1000).tmod 10).toNat] else []) ++
  (if 100 ≤ w then [(48 + (w.tdiv 100).tmod 10).toNat] else []) ++
  (if 10 ≤ w then [(48 + (w.tdiv 10).tmod 10).toNat] else []) ++
  [(48 + w.tmod 10).toNat]

/-- Bytes appended for a signed Int node: the sign if v < 0, the special
INT64_MIN text, and otherwise the cascade applied to -v.  Note that the
source negates unconditionally (v = -v also runs for v > 0). -/
def dumpIntBody (v : Int) : List Nat :=
  (if v < 0 then [45] else []) ++
  (if v = -9223372036854775808 then int64MinMagBytes
   else dumpIntCascade (-v))

/-- Bytes appended for a SmallInt node: sign, then the single digit 48 + v
on the magnitude. -/
def dumpSmallIntBody (v : Int) : List Nat :=
  if v < 0 then [45, (48 + -v).toNat] else [(48 + v).toNat]

/-- The dumpInteger dispatch: UInt, Int and SmallInt append their digit
bytes; any other tag raises the InternalError of the final else branch. -/
def dumpInteger (slice : JValue) (st : DumpState) : DM :=
  match slice with
  | JValue.UInt v => Except.ok { st with buffer := st.buffer ++ dumpUIntBody v }
  | JValue.Int v => Except.ok { st with buffer := st.buffer ++ dumpIntBody v }
  | JValue.SmallInt v => Except.ok { st with buffer := st.buffer ++ dumpSmallIntBody v }
  | _ => Except.error (JasonException.InternalError, st)

/-- handleUnsupportedType: under StrategyNullify append the literal null,
otherwise raise NoJsonEquivalent (appending nothing). -/
def handleUnsupportedType (cfg : DumperConfig) (st : DumpState) : DM :=
  match cfg.strategy with
  | UnsupportedTypeStrategy.StrategyNullify =>
      Except.ok { st with buffer := st.buffer ++ [110, 117, 108, 108] }
  | UnsupportedTypeStrategy.StrategyFail =>
      Except.error (JasonException.NoJsonEquivalent, st)

/-- Bytes appended by indent(): two spaces per indentation level. -/
def indentBytes (n : Nat) : List Nat :=
  (List.replicate n [32, 32]).flatten

mutual

/-- internalDump: consult the callback first; if it handled the node, stop.
Otherwise dispatch on the type tag exactly as the switch of the source. -/
def internalDump (cfg : DumperConfig) (slice : JValue) (parent : Option JValue)
    (st : DumpState) : DM :=
  match cbStep cfg.callback slice parent st with
  | (st1, true) => Except.ok st1
  | (st1, false) =>
    match slice with
    | JValue.None => handleUnsupportedType cfg st1
    | JValue.Null => Except.ok { st1 with buffer := st1.buffer ++ [110, 117, 108, 108] }
    | JValue.Bool b =>
        Except.ok { st1 with buffer :=
          st1.buffer ++ (if b then [116, 114, 117, 101] else [102, 97, 108, 115, 101]) }
    | JValue.Array xs =>
        match cfg.prettyPrint with
        | true =>
            match dumpArrayPretty cfg (JValue.Array xs) xs
              { st1 with buffer := st1.buffer ++ [91, 10],
                         indentation := st1.indentation + 1 } with
            | Except.ok st2 =>
                Except.ok { st2 with
                  buffer := st2.buffer ++ indentBytes (st2.indentation - 1) ++ [93],
                  indentation := st2.indentation - 1 }
            | Except.error e => Except.error e
        | false =>
            match dumpArrayCompact cfg (JValue.Array xs) xs true
              { st1 with buffer := st1.buffer ++ [91] } with
            | Except.ok st2 => Except.ok { st2 with buffer := st2.buffer ++ [93] }
            | Except.error e => Except.error e
    | JValue.Object ms =>
        match cfg.prettyPrint with
        | true =>
            match dumpObjectPretty cfg (JValue.Object ms) ms
              { st1 with buffer := st1.buffer ++ [123, 10],
                         indentation := st1.indentation + 1 } with
            | Except.ok st2 =>
                Except.ok { st2 with
                  buffer := st2.buffer ++ indentBytes (st2.indentation - 1) ++ [125],
                  indentation := st2.indentation - 1 }
            | Except.error e => Except.error e
        | false =>
            match dumpObjectCompact cfg (JValue.Object ms) ms true
              { st1 with buffer := st1.buffer ++ [123] } with
            | Except.ok st2 => Except.ok { st2 with buffer := st2.buffer ++ [125] }
            | Except.error e => Except.error e
    | JValue.Double nonFinite text =>
        if nonFinite then handleUnsupportedType cfg st1
        else Except.ok { st1 with buffer := st1.buffer ++ text }
    | JValue.UTCDate => handleUnsupportedType cfg st1
    | JValue.External inner => internalDump cfg inner Option.none st1
    | JValue.MinKey => handleUnsupportedType cfg st1
    | JValue.MaxKey => handleUnsupportedType cfg st1
    | JValue.Int v => dumpInteger (JValue.Int v) st1
    | JValue.UInt v => dumpInteger (JValue.UInt v) st1
    | JValue.SmallInt v => dumpInteger (JValue.SmallInt v) st1
    | JValue.String bytes =>
        match dumpString bytes { st1 with buffer := st1.buffer ++ [34] } with
        | Except.ok st2 => Except.ok { st2 with buffer := st2.buffer ++ [34] }
        | Except.error e => Except.error e
    | JValue.Binary => handleUnsupportedType cfg st1
    | JValue.BCD => handleUnsupportedType cfg st1
    | JValue.Custom => handleUnsupportedType cfg st1
termination_by sizeOf slice
decreasing_by all_goals (simp; try omega)

/-- The compact array loop: a comma before every element except the first,
then the element. -/
def dumpArrayCompact (cfg : DumperConfig) (parent : JValue) (elems : List JValue)
    (isFirst : Bool) (st : DumpState) : DM :=
  match elems with
  | [] => Except.ok st
  | x :: rest =>
      match internalDump cfg x (Option.some parent)
        (if isFirst then st else { st with buffer := st.buffer ++ [44] }) with
      | Except.ok st1 => dumpArrayCompact cfg parent rest false st1
      | Except.error e => Except.error e
termination_by sizeOf elems
decreasing_by all_goals (simp; try omega)

/-- The pretty array loop: indent, element, a comma unless last, then a
newline. -/
def dumpArrayPretty (cfg : DumperConfig) (parent : JValue) (elems : List JValue)
    (st : DumpState) : DM :=
  match elems with
  | [] => Except.ok st
  | x :: rest =>
      match internalDump cfg x (Option.some parent)
        { st with buffer := st.buffer ++ indentBytes st.indentation } with
      | Except.ok st1 =>
          dumpArrayPretty cfg parent rest
            { st1 with buffer := st1.buffer ++ (if rest.isEmpty then [] else [44]) ++ [10] }
      | Except.error e => Except.error e
termination_by sizeOf elems
decreasing_by all_goals (simp; try omega)

/-- The compact object loop: a comma before every member except the first,
then key, colon, value. -/
def dumpObjectCompact (cfg : DumperConfig) (parent : JValue)
    (members : List (JValue × JValue)) (isFirst : Bool) (st : DumpState) : DM :=
  match members with
  | [] => Except.ok st
  | (k, v) :: rest =>
      match internalDump cfg k (Option.some parent)
        (if isFirst then st else { st with buffer := st.buffer ++ [44] }) with
      | Except.ok st1 =>
          match internalDump cfg v (Option.some parent)
            { st1 with buffer := st1.buffer ++ [58] } with
          | Except.ok st2 => dumpObjectCompact cfg parent rest false st2
          | Except.error e => Except.error e
      | Except.error e => Except.error e
termination_by sizeOf members
decreasing_by all_goals (simp; try omega)

/-- The pretty object loop: indent, key, space colon space, value, a comma
unless last, then a newline. -/
def dumpObjectPretty (cfg : DumperConfig) (parent : JValue)
    (members : List (JValue × JValue)) (st : DumpState) : DM :=
  match members with
  | [] => Except.ok st
  | (k, v) :: rest =>
      match internalDump cfg k (Option.some parent)
        { st with buffer := st.buffer ++ indentBytes st.indentation } with
      | Except.ok st1 =>
          match internalDump cfg v (Option.some parent)
            { st1 with buffer := st1.buffer ++ [32, 58, 32] } with
          | Except.ok st2 =>
              dumpObjectPretty cfg parent rest
                { st2 with buffer := st2.buffer ++ (if rest.isEmpty then [] else [44]) ++ [10] }
          | Except.error e => Except.error e
      | Except.error e => Except.error e
termination_by sizeOf members
decreasing_by all_goals (simp; try omega)

end

/-- The public dump entry point: reset indentation to zero and dump with no
parent. -/
def dump (cfg : DumperConfig) (slice : JValue) (st : DumpState) : DM :=
  internalDump cfg slice Option.none { st with indentation := 0 }

/-- The unsigned threshold cascade in recursive form: thresholds from 10 to
the power k+1 down, ending with the unconditional units digit;
dumpUIntBody is this at k = 19. -/
def cascadeB : Nat → Nat → List Nat
  | 0, v => [48 + v % 10]
  | k + 1, v => (if 10 ^ (k + 1) ≤ v then [48 + v / 10 ^ (k + 1) % 10] else []) ++ cascadeB k v

/-- The k+1 trailing decimal digit bytes of v, most significant first,
including leading zeros. -/
def allDigitsB : Nat → Nat → List Nat
  | 0, v => [48 + v % 10]
  | k + 1, v => (48 + v / 10 ^ (k + 1) % 10) :: allDigitsB k v

/-- The decimal digit bytes of v, most significant first, no leading zeros;
empty for 0. -/
def natBytes (v : Nat) : List Nat :=
  if h : v = 0 then [] else natBytes (v / 10) ++ [48 + v % 10]
decreasing_by exact Nat.div_lt_self (Nat.pos_of_ne_zero h) (by norm_num)

/-- The decimal representation of v as bytes: the digits with no leading
zeros, and the single digit 0 for v = 0. -/
def decimalBytes (v : Nat) : List Nat :=
  if v = 0 then [48] else natBytes v

/-- Stated from the claim: the expected output for one ASCII byte of a
string body.  The eight short escapes, the generic uppercase-hex escape
for remaining control codes below 32, pass-through otherwise. -/
def expectedAscii (c : Nat) : List Nat :=
  if c = 8 then [92, 98]
  else if c = 9 then [92, 116]
  else if c = 10 then [92, 110]
  else if c = 12 then [92, 102]
  else if c = 13 then [92, 114]
  else if c = 34 then [92, 34]
  else if c = 92 then [92, 92]
  else if c = 47 then [92, 47]
  else if c < 32 then
    [92, 117, 48, 48,
     if c / 16 < 10 then 48 + c / 16 else 55 + c / 16,
     if c % 16 < 10 then 48 + c % 16 else 55 + c % 16]
  else [c]

/-- Stated from the claim: element outputs joined with a separator between
consecutive elements. -/
def joinSep (sep : List Nat) : List (List Nat) → List Nat
  | [] => []
  | [o] => o
  | o :: rest => o ++ sep ++ joinSep sep rest

/-- Stated from the claim: the pretty-mode element lines, each element
indented at the given level, a comma after every element but the last, and
a newline ending every line. -/
def prettyItems (lvl : Nat) : List (List Nat) → List Nat
  | [] => []
  | o :: rest =>
      indentBytes lvl ++ o ++ (if rest.isEmpty then [] else [44]) ++ [10] ++
        prettyItems lvl rest

/-- The tags (plus the non-finite doubles) that the traversal engine routes
to handleUnsupportedType. -/
def isUnsupported : JValue → Bool
  | JValue.None => true
  | JValue.UTCDate => true
  | JValue.Binary => true
  | JValue.MinKey => true
  | JValue.MaxKey => true
  | JValue.BCD => true
  | JValue.Custom => true
  | JValue.Double nonFinite _ => nonFinite
  | _ => false

/-- Prepend a fixed byte list to the buffer of a dump result (both on
success and inside an error). -/
def prependResult (b : List Nat) : DM → DM
  | Except.ok st => Except.ok { st with buffer := b ++ st.buffer }
  | Except.error (e, st) => Except.error (e, { st with buffer := b ++ st.buffer })

/-- A compact dumper with the default StrategyFail and no callback. -/
def cfgCompactFail : DumperConfig :=
  ⟨false, UnsupportedTypeStrategy.StrategyFail, Option.none⟩

/-- A pretty-print dumper with StrategyFail and no callback. -/
def cfgPrettyFail : DumperConfig :=
  ⟨true, UnsupportedTypeStrategy.StrategyFail, Option.none⟩

/-- A compact dumper with StrategyNullify and no callback. -/
def cfgCompactNullify : DumperConfig :=
  ⟨false, UnsupportedTypeStrategy.StrategyNullify, Option.none⟩

/-- A compact dumper whose callback appends the byte 120 and reports the node
as handled. -/
def cfgHook : DumperConfig :=
  ⟨false, UnsupportedTypeStrategy.StrategyFail,
   Option.some (fun b _ _ => (b ++ [120], true))⟩



theorem natBytes_zero : natBytes 0 = [] := by
  unfold natBytes; simp

theorem natBytes_pos (v : Nat) (h : v ≠ 0) :
    natBytes v = natBytes (v / 10) ++ [48 + v % 10] := by
  conv_lhs => unfold natBytes
  simp [h]

theorem allDigitsB_shift (k : Nat) :
    ∀ v, allDigitsB (k + 1) v = allDigitsB k (v / 10) ++ [48 + v % 10] := by
  induction k with
  | zero => intro v; simp [allDigitsB]
  | succ k ih =>
      intro v
      have hd : v / 10 / 10 ^ (k + 1) = v / 10 ^ (k + 2) := by
        rw [Nat.div_div_eq_div_mul]
        congr 1
        ring
      calc allDigitsB (k + 2) v
          = (48 + v / 10 ^ (k + 2) % 10) :: allDigitsB (k + 1) v := rfl
        _ = (48 + v / 10 ^ (k + 2) % 10) :: (allDigitsB k (v / 10) ++ [48 + v % 10]) := by
              rw [ih]
        _ = ((48 + v / 10 / 10 ^ (k + 1) % 10) :: allDigitsB k (v / 10)) ++ [48 + v % 10] := by
              rw [hd]; simp
        _ = allDigitsB (k + 1) (v / 10) ++ [48 + v % 10] := rfl

theorem natBytes_eq_allDigitsB (k : Nat) :
    ∀ v, 10 ^ k ≤ v → v < 10 ^ (k + 1) → natBytes v = allDigitsB k v := by
  induction k with
  | zero =>
      intro v h1 h2
      norm_num at h1 h2
      rw [natBytes_pos v (by omega), Nat.div_eq_of_lt (by omega), natBytes_zero]
      simp [allDigitsB]
  | succ k ih =>
      intro v h1 h2
      have hp : 0 < 10 ^ (k + 1) := pow_pos (by norm_num) _
      rw [natBytes_pos v (by omega)]
      have h1m : 10 ^ k * 10 ≤ v := by rw [← pow_succ]; exact h1
      have h1d : 10 ^ k ≤ v / 10 := (Nat.le_div_iff_mul_le (by norm_num)).mpr h1m
      have h2d : v / 10 < 10 ^ (k + 1) := by
        rw [Nat.div_lt_iff_lt_mul (by norm_num)]
        calc v < 10 ^ (k + 2) := h2
          _ = 10 ^ (k + 1) * 10 := by ring
      rw [ih (v / 10) h1d h2d, ← allDigitsB_shift]

theorem cascadeB_ge (k : Nat) : ∀ v, 10 ^ k ≤ v → cascadeB k v = allDigitsB k v := by
  induction k with
  | zero => intro v _h; rfl
  | succ k ih =>
      intro v h
      have h' : 10 ^ k ≤ v :=
        le_trans (Nat.pow_le_pow_right (by norm_num) (Nat.le_succ k)) h
      simp [cascadeB, allDigitsB, h, ih v h']

theorem cascadeB_correct (k : Nat) : ∀ v, v < 10 ^ (k + 1) → cascadeB k v = decimalBytes v := by
  induction k with
  | zero =>
      intro v hv
      norm_num at hv
      by_cases h0 : v = 0
      · subst h0; simp [cascadeB, decimalBytes]
      · have hnb : natBytes v = [48 + v % 10] := by
          rw [natBytes_pos v h0, Nat.div_eq_of_lt (by omega), natBytes_zero]
          simp
        simp [cascadeB, decimalBytes, h0, hnb]
  | succ k ih =>
      intro v hv
      by_cases hge : 10 ^ (k + 1) ≤ v
      · have hv0 : v ≠ 0 := by
          have := pow_pos (show (0:Nat) < 10 by norm_num) (k + 1); omega
        rw [cascadeB_ge (k + 1) v hge,
            show decimalBytes v = natBytes v from by simp [decimalBytes, hv0]]
        exact (natBytes_eq_allDigitsB (k + 1) v hge hv).symm
      · push_neg at hge
        have hstep : cascadeB (k + 1) v = cascadeB k v := by
          have : ¬ (10 ^ (k + 1) ≤ v) := by omega
          simp [cascadeB, this]
        rw [hstep, ih v hge]

theorem dumpUIntBody_eq_cascadeB (v : Nat) : dumpUIntBody v = cascadeB 19 v := by
  simp only [dumpUIntBody, cascadeB]
  norm_num



/-- C5: for every unsigned 64-bit value v of an UnsignedInt node, dumping the
node appends exactly the decimal representation of v with no leading zeros
(most-significant digit first via the threshold cascade); 0 emits the single
digit 0 and the maximum value emits its 20 digits, both covered by the
general statement. -/
theorem claim_C5 (cfg : DumperConfig) (v : Nat) (parent : Option JValue) (st : DumpState)
    (hcb : cfg.callback = Option.none) (hv : v < 2 ^ 64) :
    internalDump cfg (JValue.UInt v) parent st
      = Except.ok { st with buffer := st.buffer ++ decimalBytes v } := by
  have hd : dumpUIntBody v = decimalBytes v := by
    rw [dumpUIntBody_eq_cascadeB]
    exact cascadeB_correct 19 v (lt_trans hv (by norm_num))
  rw [internalDump]
  simp [cbStep, hcb, dumpInteger, hd]

/-- Witness for C5 at the maximum unsigned 64-bit value. -/
theorem claim_C5_witness :
    (18446744073709551615 : Nat) < 2 ^ 64 ∧
    internalDump cfgCompactFail (JValue.UInt 18446744073709551615) Option.none ⟨[], 0⟩
      = Except.ok ⟨[] ++ decimalBytes 18446744073709551615, 0⟩ :=
  ⟨by norm_num,
   claim_C5 cfgCompactFail 18446744073709551615 Option.none ⟨[], 0⟩ rfl (by norm_num)⟩

/-- C1 (code bug): the claim says every signed value formats as its decimal
representation, but the source negates v unconditionally (v = -v runs even
for positive v), so the positive Int node 1 appends the single byte 47 (the
slash character) instead of 49 (the digit 1).  This theorem evaluates the
code at the failing input. -/
theorem claim_C1_code_bug :
    internalDump cfgCompactFail (JValue.Int 1) Option.none ⟨[], 0⟩ = Except.ok ⟨[47], 0⟩ ∧
    dumpIntBody 1 = [47] ∧ [47] ≠ ([49] : List Nat) := by
  refine ⟨?_, by decide, by decide⟩
  rw [internalDump]
  simp [cbStep, cfgCompactFail, dumpInteger, dumpIntBody, dumpIntCascade]
  decide

/-- C2 counterexample: the claim says an isolated continuation byte is copied
to the output as a single raw byte, but dumping the one-byte string 0x80
appends nothing: the byte matches no branch of the scanner and only the
pointer increment runs. -/
theorem claim_C2_counterexample :
    dumpString [128] ⟨[], 0⟩ = Except.ok ⟨[], 0⟩ ∧
    (DumpState.mk [] 0) ≠ DumpState.mk [128] 0 := by
  constructor
  · rw [dumpString]; simp +decide; rw [dumpString]
  · decide

set_option maxRecDepth 40000 in
/-- C2 amended: a byte that is neither ASCII nor a valid 2/3/4-byte UTF-8
lead byte (an isolated continuation byte 0x80-0xBF or an invalid lead byte
0xF8-0xFF) is skipped without validation: the scan continues with the rest
of the input and no bytes are appended for it. -/
theorem claim_C2_amended (c : Nat) (hc : (128 ≤ c ∧ c ≤ 191) ∨ (248 ≤ c ∧ c ≤ 255))
    (rest : List Nat) (st : DumpState) :
    dumpString (c :: rest) st = dumpString rest st := by
  have hlt : c < 256 := by omega
  have hf := (by decide :
    ∀ x, x < 256 → ((128 ≤ x ∧ x ≤ 191) ∨ (248 ≤ x ∧ x ≤ 255)) →
      (¬ x &&& 128 = 0 ∧ ¬ x &&& 224 = 192 ∧ ¬ x &&& 240 = 224 ∧ ¬ x &&& 248 = 240)) c hlt hc
  rw [dumpString]
  simp [hf.1, hf.2.1, hf.2.2.1, hf.2.2.2]

/-- Witness for the amended C2 at the isolated continuation byte 0x80. -/
theorem claim_C2_witness :
    dumpString (128 :: []) ⟨[], 0⟩ = dumpString [] ⟨[], 0⟩ :=
  claim_C2_amended 128 (Or.inl (by norm_num)) [] ⟨[], 0⟩

set_option maxRecDepth 40000 in
/-- C4: when a byte classified as a 2-, 3- or 4-byte UTF-8 lead byte occurs
where the remaining declared length holds fewer than 2, 3 or 4 bytes, the
escaper raises InvalidUtf8Sequence (appending nothing for the sequence);
otherwise the whole sequence is copied verbatim, with no constraint on the
continuation bytes' bit patterns, and the scan continues after it. -/
theorem claim_C4 (c : Nat) (hc : c < 256) (rest : List Nat) (st : DumpState) :
    (c &&& 224 = 192 →
      (rest.length + 1 < 2 →
        dumpString (c :: rest) st = Except.error (JasonException.InvalidUtf8Sequence, st)) ∧
      (2 ≤ rest.length + 1 →
        dumpString (c :: rest) st =
          dumpString (rest.drop 1) { st with buffer := st.buffer ++ c :: rest.take 1 })) ∧
    (c &&& 240 = 224 →
      (rest.length + 1 < 3 →
        dumpString (c :: rest) st = Except.error (JasonException.InvalidUtf8Sequence, st)) ∧
      (3 ≤ rest.length + 1 →
        dumpString (c :: rest) st =
          dumpString (rest.drop 2) { st with buffer := st.buffer ++ c :: rest.take 2 })) ∧
    (c &&& 248 = 240 →
      (rest.length + 1 < 4 →
        dumpString (c :: rest) st = Except.error (JasonException.InvalidUtf8Sequence, st)) ∧
      (4 ≤ rest.length + 1 →
        dumpString (c :: rest) st =
          dumpString (rest.drop 3) { st with buffer := st.buffer ++ c :: rest.take 3 })) := by
  refine ⟨?_, ?_, ?_⟩
  · intro h2
    have hb := (by decide : ∀ x, x < 256 → x &&& 224 = 192 → ¬ x &&& 128 = 0) c hc h2
    constructor
    · intro hlen
      rw [dumpString]; simp [hb, h2, show rest.length < 1 from by omega]
    · intro hlen
      rw [dumpString]; simp [hb, h2, show ¬ rest.length < 1 from by omega]
  · intro h3
    have hb := (by decide : ∀ x, x < 256 → x &&& 240 = 224 →
      (¬ x &&& 128 = 0 ∧ ¬ x &&& 224 = 192)) c hc h3
    constructor
    · intro hlen
      rw [dumpString]; simp [hb.1, hb.2, h3, show rest.length < 2 from by omega]
    · intro hlen
      rw [dumpString]; simp [hb.1, hb.2, h3, show ¬ rest.length < 2 from by omega]
  · intro h4
    have hb := (by decide : ∀ x, x < 256 → x &&& 248 = 240 →
      (¬ x &&& 128 = 0 ∧ ¬ x &&& 224 = 192 ∧ ¬ x &&& 240 = 224)) c hc h4
    constructor
    · intro hlen
      rw [dumpString]; simp [hb.1, hb.2.1, hb.2.2, h4, show rest.length < 3 from by omega]
    · intro hlen
      rw [dumpString]; simp [hb.1, hb.2.1, hb.2.2, h4, show ¬ rest.length < 3 from by omega]

/-- Witness for C4: the 2-byte lead 0xC3 at the end of the input raises
InvalidUtf8Sequence. -/
theorem claim_C4_witness :
    dumpString (195 :: []) ⟨[], 0⟩ =
      Except.error (JasonException.InvalidUtf8Sequence, ⟨[], 0⟩) :=
  ((claim_C4 195 (by norm_num) [] ⟨[], 0⟩).1 (by decide)).1 (by norm_num)

set_option maxRecDepth 40000 in
/-- C7: for every ASCII byte of a string body, the scanner appends exactly
the escape described by the claim: the eight short escapes for backspace,
tab, newline, form feed, carriage return, double quote, backslash and
forward slash; the generic uppercase-hex escape for the other control
codes below 0x20; and the byte itself otherwise. -/
theorem claim_C7 (c : Nat) (hc : c < 128) :
    (∀ rest st, dumpString (c :: rest) st =
        dumpString rest { st with buffer := st.buffer ++ escapeAscii c }) ∧
    escapeAscii c = expectedAscii c := by
  have hbit := (by decide : ∀ x, x < 128 → x &&& 128 = 0) c hc
  refine ⟨fun rest st => ?_, (by decide : ∀ x, x < 128 → escapeAscii x = expectedAscii x) c hc⟩
  rw [dumpString]; simp [hbit]

/-- Witness for C7 at the double-quote byte 34. -/
theorem claim_C7_witness :
    (dumpString (34 :: []) ⟨[], 0⟩ =
      dumpString [] ⟨[] ++ escapeAscii 34, 0⟩) ∧
    escapeAscii 34 = expectedAscii 34 :=
  ⟨(claim_C7 34 (by norm_num)).1 [] ⟨[], 0⟩, (claim_C7 34 (by norm_num)).2⟩




theorem cbStep_fst_ind (cb : Option JasonCallback) (slice : JValue) (parent : Option JValue)
    (st : DumpState) : (cbStep cb slice parent st).1.indentation = st.indentation := by
  cases cb <;> rfl

theorem handleUnsupportedType_ind (cfg : DumperConfig) (st st' : DumpState)
    (h : handleUnsupportedType cfg st = Except.ok st') : st'.indentation = st.indentation := by
  cases hs : cfg.strategy <;> simp [handleUnsupportedType, hs] at h
  subst h; rfl

theorem dumpInteger_ind (slice : JValue) (st st' : DumpState)
    (h : dumpInteger slice st = Except.ok st') : st'.indentation = st.indentation := by
  cases slice <;> simp [dumpInteger] at h <;> subst h <;> rfl

theorem dumpString_ind : ∀ (s : List Nat) (st st' : DumpState),
    dumpString s st = Except.ok st' → st'.indentation = st.indentation := by
  suffices hsuff : ∀ n (s : List Nat), s.length ≤ n → ∀ st st',
      dumpString s st = Except.ok st' → st'.indentation = st.indentation by
    exact fun s => hsuff s.length s le_rfl
  intro n
  induction n with
  | zero =>
      intro s hs st st' h
      have : s = [] := List.eq_nil_of_length_eq_zero (by omega)
      subst this
      rw [dumpString] at h
      simp at h
      subst h; rfl
  | succ n ih =>
      intro s hs st st' h
      match s with
      | [] =>
          rw [dumpString] at h
          simp at h
          subst h; rfl
      | c :: rest =>
          rw [dumpString] at h
          simp only [List.length_cons] at hs
          by_cases h1 : c &&& 128 = 0
          · simp only [h1, if_true] at h
            exact ih rest (by omega) { st with buffer := st.buffer ++ escapeAscii c } st' h
          · simp only [h1, if_false] at h
            by_cases h2 : c &&& 224 = 192
            · simp only [h2, if_true] at h
              by_cases hl : rest.length < 1
              · simp [hl] at h
              · simp only [hl, if_false] at h
                exact ih (rest.drop 1) (by simp [List.length_drop]; omega) { st with buffer := st.buffer ++ c :: rest.take 1 } st' h
            · simp only [h2, if_false] at h
              by_cases h3 : c &&& 240 = 224
              · simp only [h3, if_true] at h
                by_cases hl : rest.length < 2
                · simp [hl] at h
                · simp only [hl, if_false] at h
                  exact ih (rest.drop 2) (by simp [List.length_drop]; omega) { st with buffer := st.buffer ++ c :: rest.take 2 } st' h
              · simp only [h3, if_false] at h
                by_cases h4 : c &&& 248 = 240
                · simp only [h4, if_true] at h
                  by_cases hl : rest.length < 3
                  · simp [hl] at h
                  · simp only [hl, if_false] at h
                    exact ih (rest.drop 3) (by simp [List.length_drop]; omega) { st with buffer := st.buffer ++ c :: rest.take 3 } st' h
                · simp only [h4, if_false] at h
                  exact ih rest (by omega) st st' h



theorem ite_state_ind (flag : Bool) (st : DumpState) (l : List Nat) :
    (if flag then st else { st with buffer := st.buffer ++ l }).indentation
      = st.indentation := by
  cases flag <;> rfl

theorem dumpInd (cfg : DumperConfig) : ∀ N : Nat,
    (∀ slice, sizeOf slice ≤ N → ∀ parent st st',
        internalDump cfg slice parent st = Except.ok st' →
          st'.indentation = st.indentation) ∧
    (∀ xs : List JValue, sizeOf xs ≤ N → ∀ p flag st st',
        dumpArrayCompact cfg p xs flag st = Except.ok st' →
          st'.indentation = st.indentation) ∧
    (∀ xs : List JValue, sizeOf xs ≤ N → ∀ p st st',
        dumpArrayPretty cfg p xs st = Except.ok st' →
          st'.indentation = st.indentation) ∧
    (∀ ms : List (JValue × JValue), sizeOf ms ≤ N → ∀ p flag st st',
        dumpObjectCompact cfg p ms flag st = Except.ok st' →
          st'.indentation = st.indentation) ∧
    (∀ ms : List (JValue × JValue), sizeOf ms ≤ N → ∀ p st st',
        dumpObjectPretty cfg p ms st = Except.ok st' →
          st'.indentation = st.indentation) := by
  intro N
  induction N using Nat.strong_induction_on with
  | _ N ih =>
  refine ⟨?_, ?_, ?_, ?_, ?_⟩
  · intro slice hsz parent st st' h
    rw [internalDump] at h
    rcases hc : cbStep cfg.callback slice parent st with ⟨st1, handled⟩
    rw [hc] at h
    have hind1 : st1.indentation = st.indentation := by
      have htmp := cbStep_fst_ind cfg.callback slice parent st
      rw [hc] at htmp
      exact htmp
    cases handled with
    | true =>
        simp at h
        subst h
        exact hind1
    | false =>
        cases slice with
        | None =>
            rw [← hind1]; exact handleUnsupportedType_ind cfg st1 st' h
        | Null =>
            simp at h; subst h; exact hind1
        | Bool b =>
            simp at h; subst h; exact hind1
        | Array xs =>
            have hxs : sizeOf xs < N := by
              have : sizeOf (JValue.Array xs) = 1 + sizeOf xs := by simp
              omega
            simp only [] at h
            cases hpp : cfg.prettyPrint with
            | true =>
                rw [hpp] at h
                cases hres : dumpArrayPretty cfg (JValue.Array xs) xs
                    { st1 with buffer := st1.buffer ++ [91, 10],
                               indentation := st1.indentation + 1 } with
                | ok st2 =>
                    rw [hres] at h
                    simp at h
                    subst h
                    have h2 : st2.indentation = st1.indentation + 1 :=
                      (ih (sizeOf xs) hxs).2.2.1 xs le_rfl (JValue.Array xs)
                        { st1 with buffer := st1.buffer ++ [91, 10],
                                   indentation := st1.indentation + 1 } st2 hres
                    show st2.indentation - 1 = st.indentation
                    omega
                | error e =>
                    rw [hres] at h
                    exact absurd h (by simp)
            | false =>
                rw [hpp] at h
                cases hres : dumpArrayCompact cfg (JValue.Array xs) xs true
                    { st1 with buffer := st1.buffer ++ [91] } with
                | ok st2 =>
                    rw [hres] at h
                    simp at h
                    subst h
                    have h2 : st2.indentation = st1.indentation :=
                      (ih (sizeOf xs) hxs).2.1 xs le_rfl (JValue.Array xs) true
                        { st1 with buffer := st1.buffer ++ [91] } st2 hres
                    show st2.indentation = st.indentation
                    omega
                | error e =>
                    rw [hres] at h
                    exact absurd h (by simp)
        | Object ms =>
            have hms : sizeOf ms < N := by
              have : sizeOf (JValue.Object ms) = 1 + sizeOf ms := by simp
              omega
            simp only [] at h
            cases hpp : cfg.prettyPrint with
            | true =>
                rw [hpp] at h
                cases hres : dumpObjectPretty cfg (JValue.Object ms) ms
                    { st1 with buffer := st1.buffer ++ [123, 10],
                               indentation := st1.indentation + 1 } with
                | ok st2 =>
                    rw [hres] at h
                    simp at h
                    subst h
                    have h2 : st2.indentation = st1.indentation + 1 :=
                      (ih (sizeOf ms) hms).2.2.2.2 ms le_rfl (JValue.Object ms)
                        { st1 with buffer := st1.buffer ++ [123, 10],
                                   indentation := st1.indentation + 1 } st2 hres
                    show st2.indentation - 1 = st.indentation
                    omega
                | error e =>
                    rw [hres] at h
                    exact absurd h (by simp)
            | false =>
                rw [hpp] at h
                cases hres : dumpObjectCompact cfg (JValue.Object ms) ms true
                    { st1 with buffer := st1.buffer ++ [123] } with
                | ok st2 =>
                    rw [hres] at h
                    simp at h
                    subst h
                    have h2 : st2.indentation = st1.indentation :=
                      (ih (sizeOf ms) hms).2.2.2.1 ms le_rfl (JValue.Object ms) true
                        { st1 with buffer := st1.buffer ++ [123] } st2 hres
                    show st2.indentation = st.indentation
                    omega
                | error e =>
                    rw [hres] at h
                    exact absurd h (by simp)
        | Double nonFinite text =>
            cases nonFinite with
            | true =>
                simp at h
                rw [← hind1]
                exact handleUnsupportedType_ind cfg st1 st' h
            | false =>
                simp at h; subst h; exact hind1
        | UTCDate =>
            rw [← hind1]; exact handleUnsupportedType_ind cfg st1 st' h
        | External inner =>
            have hin : sizeOf inner < N := by
              have : sizeOf (JValue.External inner) = 1 + sizeOf inner := by simp
              omega
            have h2 : st'.indentation = st1.indentation :=
              (ih (sizeOf inner) hin).1 inner le_rfl Option.none st1 st' h
            omega
        | MinKey =>
            rw [← hind1]; exact handleUnsupportedType_ind cfg st1 st' h
        | MaxKey =>
            rw [← hind1]; exact handleUnsupportedType_ind cfg st1 st' h
        | Int v =>
            rw [← hind1]; exact dumpInteger_ind (JValue.Int v) st1 st' h
        | UInt v =>
            rw [← hind1]; exact dumpInteger_ind (JValue.UInt v) st1 st' h
        | SmallInt v =>
            rw [← hind1]; exact dumpInteger_ind (JValue.SmallInt v) st1 st' h
        | String bytes =>
            simp only [] at h
            cases hres : dumpString bytes { st1 with buffer := st1.buffer ++ [34] } with
            | ok st2 =>
                rw [hres] at h
                simp at h
                subst h
                have h2 : st2.indentation = st1.indentation :=
                  dumpString_ind bytes { st1 with buffer := st1.buffer ++ [34] } st2 hres
                show st2.indentation = st.indentation
                omega
            | error e =>
                rw [hres] at h
                exact absurd h (by simp)
        | Binary =>
            rw [← hind1]; exact handleUnsupportedType_ind cfg st1 st' h
        | BCD =>
            rw [← hind1]; exact handleUnsupportedType_ind cfg st1 st' h
        | Custom =>
            rw [← hind1]; exact handleUnsupportedType_ind cfg st1 st' h
  · intro xs hsz p flag st st' h
    cases xs with
    | nil =>
        rw [dumpArrayCompact] at h
        simp at h; subst h; rfl
    | cons x rest =>
        have hx : sizeOf x < N := by
          have : sizeOf (x :: rest) = 1 + sizeOf x + sizeOf rest := by simp
          omega
        have hrest : sizeOf rest < N := by
          have : sizeOf (x :: rest) = 1 + sizeOf x + sizeOf rest := by simp
          omega
        rw [dumpArrayCompact] at h
        cases hres : internalDump cfg x (Option.some p)
            (if flag then st else { st with buffer := st.buffer ++ [44] }) with
        | ok st1 =>
            rw [hres] at h
            have h1 : st1.indentation = st.indentation := by
              have := (ih (sizeOf x) hx).1 x le_rfl (Option.some p)
                (if flag then st else { st with buffer := st.buffer ++ [44] }) st1 hres
              rw [ite_state_ind] at this
              exact this
            have h2 : st'.indentation = st1.indentation :=
              (ih (sizeOf rest) hrest).2.1 rest le_rfl p false st1 st' h
            omega
        | error e =>
            rw [hres] at h
            exact absurd h (by simp)
  · intro xs hsz p st st' h
    cases xs with
    | nil =>
        rw [dumpArrayPretty] at h
        simp at h; subst h; rfl
    | cons x rest =>
        have hx : sizeOf x < N := by
          have : sizeOf (x :: rest) = 1 + sizeOf x + sizeOf rest := by simp
          omega
        have hrest : sizeOf rest < N := by
          have : sizeOf (x :: rest) = 1 + sizeOf x + sizeOf rest := by simp
          omega
        rw [dumpArrayPretty] at h
        cases hres : internalDump cfg x (Option.some p)
            { st with buffer := st.buffer ++ indentBytes st.indentation } with
        | ok st1 =>
            rw [hres] at h
            have h1 : st1.indentation = st.indentation :=
              (ih (sizeOf x) hx).1 x le_rfl (Option.some p)
                { st with buffer := st.buffer ++ indentBytes st.indentation } st1 hres
            have h2 : st'.indentation = st1.indentation :=
              (ih (sizeOf rest) hrest).2.2.1 rest le_rfl p
                { st1 with buffer := st1.buffer ++ (if rest.isEmpty then [] else [44]) ++ [10] }
                st' h
            omega
        | error e =>
            rw [hres] at h
            exact absurd h (by simp)
  · intro ms hsz p flag st st' h
    cases ms with
    | nil =>
        rw [dumpObjectCompact] at h
        simp at h; subst h; rfl
    | cons kv rest =>
        obtain ⟨k, v⟩ := kv
        have hk : sizeOf k < N := by
          have : sizeOf ((k, v) :: rest) = 1 + (1 + sizeOf k + sizeOf v) + sizeOf rest := by
            simp
          omega
        have hv : sizeOf v < N := by
          have : sizeOf ((k, v) :: rest) = 1 + (1 + sizeOf k + sizeOf v) + sizeOf rest := by
            simp
          omega
        have hrest : sizeOf rest < N := by
          have : sizeOf ((k, v) :: rest) = 1 + (1 + sizeOf k + sizeOf v) + sizeOf rest := by
            simp
          omega
        rw [dumpObjectCompact] at h
        cases hresk : internalDump cfg k (Option.some p)
            (if flag then st else { st with buffer := st.buffer ++ [44] }) with
        | ok st1 =>
            rw [hresk] at h
            have h1 : st1.indentation = st.indentation := by
              have := (ih (sizeOf k) hk).1 k le_rfl (Option.some p)
                (if flag then st else { st with buffer := st.buffer ++ [44] }) st1 hresk
              rw [ite_state_ind] at this
              exact this
            have hred : (match internalDump cfg v (Option.some p)
                  { st1 with buffer := st1.buffer ++ [58] } with
                | Except.ok st2 => dumpObjectCompact cfg p rest false st2
                | Except.error e => Except.error e) = Except.ok st' := h
            cases hresv : internalDump cfg v (Option.some p)
                { st1 with buffer := st1.buffer ++ [58] } with
            | ok st2 =>
                rw [hresv] at hred
                have h2 : st2.indentation = st1.indentation :=
                  (ih (sizeOf v) hv).1 v le_rfl (Option.some p)
                    { st1 with buffer := st1.buffer ++ [58] } st2 hresv
                have h3 : st'.indentation = st2.indentation :=
                  (ih (sizeOf rest) hrest).2.2.2.1 rest le_rfl p false st2 st' hred
                omega
            | error e =>
                rw [hresv] at hred
                exact absurd hred (by simp)
        | error e =>
            rw [hresk] at h
            exact absurd h (by simp)
  · intro ms hsz p st st' h
    cases ms with
    | nil =>
        rw [dumpObjectPretty] at h
        simp at h; subst h; rfl
    | cons kv rest =>
        obtain ⟨k, v⟩ := kv
        have hk : sizeOf k < N := by
          have : sizeOf ((k, v) :: rest) = 1 + (1 + sizeOf k + sizeOf v) + sizeOf rest := by
            simp
          omega
        have hv : sizeOf v < N := by
          have : sizeOf ((k, v) :: rest) = 1 + (1 + sizeOf k + sizeOf v) + sizeOf rest := by
            simp
          omega
        have hrest : sizeOf rest < N := by
          have : sizeOf ((k, v) :: rest) = 1 + (1 + sizeOf k + sizeOf v) + sizeOf rest := by
            simp
          omega
        rw [dumpObjectPretty] at h
        cases hresk : internalDump cfg k (Option.some p)
            { st with buffer := st.buffer ++ indentBytes st.indentation } with
        | ok st1 =>
            rw [hresk] at h
            have h1 : st1.indentation = st.indentation :=
              (ih (sizeOf k) hk).1 k le_rfl (Option.some p)
                { st with buffer := st.buffer ++ indentBytes st.indentation } st1 hresk
            have hred : (match internalDump cfg v (Option.some p)
                  { st1 with buffer := st1.buffer ++ [32, 58, 32] } with
                | Except.ok st2 =>
                    dumpObjectPretty cfg p rest
                      { st2 with buffer :=
                          st2.buffer ++ (if rest.isEmpty then [] else [44]) ++ [10] }
                | Except.error e => Except.error e) = Except.ok st' := h
            cases hresv : internalDump cfg v (Option.some p)
                { st1 with buffer := st1.buffer ++ [32, 58, 32] } with
            | ok st2 =>
                rw [hresv] at hred
                have h2 : st2.indentation = st1.indentation :=
                  (ih (sizeOf v) hv).1 v le_rfl (Option.some p)
                    { st1 with buffer := st1.buffer ++ [32, 58, 32] } st2 hresv
                have h3 : st'.indentation = st2.indentation :=
                  (ih (sizeOf rest) hrest).2.2.2.2 rest le_rfl p
                    { st2 with buffer := st2.buffer ++ (if rest.isEmpty then [] else [44]) ++ [10] }
                    st' hred
                omega
            | error e =>
                rw [hresv] at hred
                exact absurd hred (by simp)
        | error e =>
            rw [hresk] at h
            exact absurd h (by simp)



theorem internalDump_ind (cfg : DumperConfig) (slice : JValue) (parent : Option JValue)
    (st st' : DumpState) (h : internalDump cfg slice parent st = Except.ok st') :
    st'.indentation = st.indentation :=
  (dumpInd cfg (sizeOf slice)).1 slice le_rfl parent st st' h

theorem dumpArrayCompact_ind (cfg : DumperConfig) (p : JValue) (xs : List JValue)
    (flag : Bool) (st st' : DumpState)
    (h : dumpArrayCompact cfg p xs flag st = Except.ok st') :
    st'.indentation = st.indentation :=
  (dumpInd cfg (sizeOf xs)).2.1 xs le_rfl p flag st st' h

theorem dumpArrayPretty_ind (cfg : DumperConfig) (p : JValue) (xs : List JValue)
    (st st' : DumpState) (h : dumpArrayPretty cfg p xs st = Except.ok st') :
    st'.indentation = st.indentation :=
  (dumpInd cfg (sizeOf xs)).2.2.1 xs le_rfl p st st' h

theorem dumpObjectCompact_ind (cfg : DumperConfig) (p : JValue)
    (ms : List (JValue × JValue)) (flag : Bool) (st st' : DumpState)
    (h : dumpObjectCompact cfg p ms flag st = Except.ok st') :
    st'.indentation = st.indentation :=
  (dumpInd cfg (sizeOf ms)).2.2.2.1 ms le_rfl p flag st st' h

theorem dumpObjectPretty_ind (cfg : DumperConfig) (p : JValue)
    (ms : List (JValue × JValue)) (st st' : DumpState)
    (h : dumpObjectPretty cfg p ms st = Except.ok st') :
    st'.indentation = st.indentation :=
  (dumpInd cfg (sizeOf ms)).2.2.2.2 ms le_rfl p st st' h

theorem handleUnsupportedType_pre (cfg : DumperConfig) (st : DumpState) (b : List Nat) :
    handleUnsupportedType cfg { st with buffer := b ++ st.buffer }
      = prependResult b (handleUnsupportedType cfg st) := by
  cases hs : cfg.strategy <;>
    simp [handleUnsupportedType, hs, prependResult, List.append_assoc]

theorem dumpInteger_pre (slice : JValue) (st : DumpState) (b : List Nat) :
    dumpInteger slice { st with buffer := b ++ st.buffer }
      = prependResult b (dumpInteger slice st) := by
  cases slice <;> simp [dumpInteger, prependResult, List.append_assoc]

theorem dumpString_pre : ∀ (s : List Nat) (st : DumpState) (b : List Nat),
    dumpString s { st with buffer := b ++ st.buffer }
      = prependResult b (dumpString s st) := by
  suffices hsuff : ∀ n (s : List Nat), s.length ≤ n → ∀ st b,
      dumpString s { st with buffer := b ++ st.buffer }
        = prependResult b (dumpString s st) by
    exact fun s => hsuff s.length s le_rfl
  intro n
  induction n with
  | zero =>
      intro s hs st b
      have : s = [] := List.eq_nil_of_length_eq_zero (by omega)
      subst this
      rw [dumpString]
      conv_rhs => rw [dumpString]
      simp [prependResult]
  | succ n ih =>
      intro s hs st b
      match s with
      | [] =>
          rw [dumpString]
          conv_rhs => rw [dumpString]
          simp [prependResult]
      | c :: rest =>
          rw [dumpString]
          conv_rhs => rw [dumpString]
          simp only [List.length_cons] at hs
          by_cases h1 : c &&& 128 = 0
          · simp only [h1, if_true]
            have := ih rest (by omega) { st with buffer := st.buffer ++ escapeAscii c } b
            rw [← List.append_assoc] at this
            exact this
          · simp only [h1, if_false]
            by_cases h2 : c &&& 224 = 192
            · simp only [h2, if_true]
              by_cases hl : rest.length < 1
              · simp [hl, prependResult]
              · simp only [hl, if_false]
                have := ih (rest.drop 1) (by simp [List.length_drop]; omega)
                  { st with buffer := st.buffer ++ c :: rest.take 1 } b
                rw [← List.append_assoc] at this
                exact this
            · simp only [h2, if_false]
              by_cases h3 : c &&& 240 = 224
              · simp only [h3, if_true]
                by_cases hl : rest.length < 2
                · simp [hl, prependResult]
                · simp only [hl, if_false]
                  have := ih (rest.drop 2) (by simp [List.length_drop]; omega)
                    { st with buffer := st.buffer ++ c :: rest.take 2 } b
                  rw [← List.append_assoc] at this
                  exact this
              · simp only [h3, if_false]
                by_cases h4 : c &&& 248 = 240
                · simp only [h4, if_true]
                  by_cases hl : rest.length < 3
                  · simp [hl, prependResult]
                  · simp only [hl, if_false]
                    have := ih (rest.drop 3) (by simp [List.length_drop]; omega)
                      { st with buffer := st.buffer ++ c :: rest.take 3 } b
                    rw [← List.append_assoc] at this
                    exact this
                · simp only [h4, if_false]
                  exact ih rest (by omega) st b



theorem dumpPre (cfg : DumperConfig) (hcb : cfg.callback = Option.none) : ∀ N : Nat,
    (∀ slice, sizeOf slice ≤ N → ∀ parent st b,
        internalDump cfg slice parent { st with buffer := b ++ st.buffer }
          = prependResult b (internalDump cfg slice parent st)) ∧
    (∀ xs : List JValue, sizeOf xs ≤ N → ∀ p flag st b,
        dumpArrayCompact cfg p xs flag { st with buffer := b ++ st.buffer }
          = prependResult b (dumpArrayCompact cfg p xs flag st)) ∧
    (∀ xs : List JValue, sizeOf xs ≤ N → ∀ p st b,
        dumpArrayPretty cfg p xs { st with buffer := b ++ st.buffer }
          = prependResult b (dumpArrayPretty cfg p xs st)) ∧
    (∀ ms : List (JValue × JValue), sizeOf ms ≤ N → ∀ p flag st b,
        dumpObjectCompact cfg p ms flag { st with buffer := b ++ st.buffer }
          = prependResult b (dumpObjectCompact cfg p ms flag st)) ∧
    (∀ ms : List (JValue × JValue), sizeOf ms ≤ N → ∀ p st b,
        dumpObjectPretty cfg p ms { st with buffer := b ++ st.buffer }
          = prependResult b (dumpObjectPretty cfg p ms st)) := by
  intro N
  induction N using Nat.strong_induction_on with
  | _ N ih =>
  refine ⟨?_, ?_, ?_, ?_, ?_⟩
  · intro slice hsz parent st b
    obtain ⟨buf, ind⟩ := st
    cases slice with
    | None =>
        rw [internalDump]
        conv_rhs => rw [internalDump]
        simp only [hcb, cbStep]
        exact handleUnsupportedType_pre cfg ⟨buf, ind⟩ b
    | Null =>
        rw [internalDump]
        conv_rhs => rw [internalDump]
        simp only [hcb, cbStep]
        simp [prependResult, List.append_assoc]
    | Bool bv =>
        rw [internalDump]
        conv_rhs => rw [internalDump]
        simp only [hcb, cbStep]
        cases bv <;> simp [prependResult, List.append_assoc]
    | Array xs =>
        have hxs : sizeOf xs < N := by
          have : sizeOf (JValue.Array xs) = 1 + sizeOf xs := by simp
          omega
        rw [internalDump]
        conv_rhs => rw [internalDump]
        simp only [hcb, cbStep]
        cases hpp : cfg.prettyPrint with
        | true =>
            simp only [hpp]
            have hpre : dumpArrayPretty cfg (JValue.Array xs) xs
                  ⟨b ++ (buf ++ [91, 10]), ind + 1⟩
                = prependResult b
                    (dumpArrayPretty cfg (JValue.Array xs) xs ⟨buf ++ [91, 10], ind + 1⟩) :=
              (ih (sizeOf xs) hxs).2.2.1 xs le_rfl (JValue.Array xs)
                ⟨buf ++ [91, 10], ind + 1⟩ b
            rw [List.append_assoc b buf [91, 10], hpre]
            cases hres : dumpArrayPretty cfg (JValue.Array xs) xs
                ⟨buf ++ [91, 10], ind + 1⟩ with
            | ok st2 => simp [prependResult, List.append_assoc]
            | error e =>
                obtain ⟨exc, est⟩ := e
                simp [prependResult]
        | false =>
            simp only [hpp]
            have hpre : dumpArrayCompact cfg (JValue.Array xs) xs true
                  ⟨b ++ (buf ++ [91]), ind⟩
                = prependResult b
                    (dumpArrayCompact cfg (JValue.Array xs) xs true ⟨buf ++ [91], ind⟩) :=
              (ih (sizeOf xs) hxs).2.1 xs le_rfl (JValue.Array xs) true ⟨buf ++ [91], ind⟩ b
            rw [List.append_assoc b buf [91], hpre]
            cases hres : dumpArrayCompact cfg (JValue.Array xs) xs true
                ⟨buf ++ [91], ind⟩ with
            | ok st2 => simp [prependResult, List.append_assoc]
            | error e =>
                obtain ⟨exc, est⟩ := e
                simp [prependResult]
    | Object ms =>
        have hms : sizeOf ms < N := by
          have : sizeOf (JValue.Object ms) = 1 + sizeOf ms := by simp
          omega
        rw [internalDump]
        conv_rhs => rw [internalDump]
        simp only [hcb, cbStep]
        cases hpp : cfg.prettyPrint with
        | true =>
            simp only [hpp]
            have hpre : dumpObjectPretty cfg (JValue.Object ms) ms
                  ⟨b ++ (buf ++ [123, 10]), ind + 1⟩
                = prependResult b
                    (dumpObjectPretty cfg (JValue.Object ms) ms ⟨buf ++ [123, 10], ind + 1⟩) :=
              (ih (sizeOf ms) hms).2.2.2.2 ms le_rfl (JValue.Object ms)
                ⟨buf ++ [123, 10], ind + 1⟩ b
            rw [List.append_assoc b buf [123, 10], hpre]
            cases hres : dumpObjectPretty cfg (JValue.Object ms) ms
                ⟨buf ++ [123, 10], ind + 1⟩ with
            | ok st2 => simp [prependResult, List.append_assoc]
            | error e =>
                obtain ⟨exc, est⟩ := e
                simp [prependResult]
        | false =>
            simp only [hpp]
            have hpre : dumpObjectCompact cfg (JValue.Object ms) ms true
                  ⟨b ++ (buf ++ [123]), ind⟩
                = prependResult b
                    (dumpObjectCompact cfg (JValue.Object ms) ms true ⟨buf ++ [123], ind⟩) :=
              (ih (sizeOf ms) hms).2.2.2.1 ms le_rfl (JValue.Object ms) true
                ⟨buf ++ [123], ind⟩ b
            rw [List.append_assoc b buf [123], hpre]
            cases hres : dumpObjectCompact cfg (JValue.Object ms) ms true
                ⟨buf ++ [123], ind⟩ with
            | ok st2 => simp [prependResult, List.append_assoc]
            | error e =>
                obtain ⟨exc, est⟩ := e
                simp [prependResult]
    | Double nonFinite text =>
        rw [internalDump]
        conv_rhs => rw [internalDump]
        simp only [hcb, cbStep]
        cases nonFinite with
        | true =>
            simp only [if_pos rfl]
            exact handleUnsupportedType_pre cfg ⟨buf, ind⟩ b
        | false =>
            simp [prependResult, List.append_assoc]
    | UTCDate =>
        rw [internalDump]
        conv_rhs => rw [internalDump]
        simp only [hcb, cbStep]
        exact handleUnsupportedType_pre cfg ⟨buf, ind⟩ b
    | External inner =>
        have hin : sizeOf inner < N := by
          have : sizeOf (JValue.External inner) = 1 + sizeOf inner := by simp
          omega
        rw [internalDump]
        conv_rhs => rw [internalDump]
        simp only [hcb, cbStep]
        exact (ih (sizeOf inner) hin).1 inner le_rfl Option.none ⟨buf, ind⟩ b
    | MinKey =>
        rw [internalDump]
        conv_rhs => rw [internalDump]
        simp only [hcb, cbStep]
        exact handleUnsupportedType_pre cfg ⟨buf, ind⟩ b
    | MaxKey =>
        rw [internalDump]
        conv_rhs => rw [internalDump]
        simp only [hcb, cbStep]
        exact handleUnsupportedType_pre cfg ⟨buf, ind⟩ b
    | Int v =>
        rw [internalDump]
        conv_rhs => rw [internalDump]
        simp only [hcb, cbStep]
        exact dumpInteger_pre (JValue.Int v) ⟨buf, ind⟩ b
    | UInt v =>
        rw [internalDump]
        conv_rhs => rw [internalDump]
        simp only [hcb, cbStep]
        exact dumpInteger_pre (JValue.UInt v) ⟨buf, ind⟩ b
    | SmallInt v =>
        rw [internalDump]
        conv_rhs => rw [internalDump]
        simp only [hcb, cbStep]
        exact dumpInteger_pre (JValue.SmallInt v) ⟨buf, ind⟩ b
    | String bytes =>
        rw [internalDump]
        conv_rhs => rw [internalDump]
        simp only [hcb, cbStep]
        have hpre : dumpString bytes ⟨b ++ (buf ++ [34]), ind⟩
            = prependResult b (dumpString bytes ⟨buf ++ [34], ind⟩) :=
          dumpString_pre bytes ⟨buf ++ [34], ind⟩ b
        rw [List.append_assoc b buf [34], hpre]
        cases hres : dumpString bytes ⟨buf ++ [34], ind⟩ with
        | ok st2 => simp [prependResult, List.append_assoc]
        | error e =>
            obtain ⟨exc, est⟩ := e
            simp [prependResult]
    | Binary =>
        rw [internalDump]
        conv_rhs => rw [internalDump]
        simp only [hcb, cbStep]
        exact handleUnsupportedType_pre cfg ⟨buf, ind⟩ b
    | BCD =>
        rw [internalDump]
        conv_rhs => rw [internalDump]
        simp only [hcb, cbStep]
        exact handleUnsupportedType_pre cfg ⟨buf, ind⟩ b
    | Custom =>
        rw [internalDump]
        conv_rhs => rw [internalDump]
        simp only [hcb, cbStep]
        exact handleUnsupportedType_pre cfg ⟨buf, ind⟩ b
  · intro xs hsz p flag st b
    obtain ⟨buf, ind⟩ := st
    cases xs with
    | nil =>
        rw [dumpArrayCompact]
        conv_rhs => rw [dumpArrayCompact]
        simp [prependResult]
    | cons x rest =>
        have hx : sizeOf x < N := by
          have : sizeOf (x :: rest) = 1 + sizeOf x + sizeOf rest := by simp
          omega
        have hrest : sizeOf rest < N := by
          have : sizeOf (x :: rest) = 1 + sizeOf x + sizeOf rest := by simp
          omega
        rw [dumpArrayCompact]
        conv_rhs => rw [dumpArrayCompact]
        have hstate : (if flag then (⟨b ++ buf, ind⟩ : DumpState)
              else ⟨b ++ buf ++ [44], ind⟩)
            = { (if flag then (⟨buf, ind⟩ : DumpState) else ⟨buf ++ [44], ind⟩) with
                buffer := b ++ (if flag then (⟨buf, ind⟩ : DumpState)
                  else ⟨buf ++ [44], ind⟩).buffer } := by
          cases flag <;> simp [List.append_assoc]
        have hpre : internalDump cfg x (Option.some p)
              { (if flag then (⟨buf, ind⟩ : DumpState) else ⟨buf ++ [44], ind⟩) with
                buffer := b ++ (if flag then (⟨buf, ind⟩ : DumpState)
                  else ⟨buf ++ [44], ind⟩).buffer }
            = prependResult b (internalDump cfg x (Option.some p)
                (if flag then (⟨buf, ind⟩ : DumpState) else ⟨buf ++ [44], ind⟩)) :=
          (ih (sizeOf x) hx).1 x le_rfl (Option.some p)
            (if flag then (⟨buf, ind⟩ : DumpState) else ⟨buf ++ [44], ind⟩) b
        rw [hstate, hpre]
        cases hres : internalDump cfg x (Option.some p)
            (if flag then (⟨buf, ind⟩ : DumpState) else ⟨buf ++ [44], ind⟩) with
        | ok st1 =>
            simp only [prependResult]
            exact (ih (sizeOf rest) hrest).2.1 rest le_rfl p false st1 b
        | error e =>
            obtain ⟨exc, est⟩ := e
            simp [prependResult]
  · intro xs hsz p st b
    obtain ⟨buf, ind⟩ := st
    cases xs with
    | nil =>
        rw [dumpArrayPretty]
        conv_rhs => rw [dumpArrayPretty]
        simp [prependResult]
    | cons x rest =>
        have hx : sizeOf x < N := by
          have : sizeOf (x :: rest) = 1 + sizeOf x + sizeOf rest := by simp
          omega
        have hrest : sizeOf rest < N := by
          have : sizeOf (x :: rest) = 1 + sizeOf x + sizeOf rest := by simp
          omega
        rw [dumpArrayPretty]
        conv_rhs => rw [dumpArrayPretty]
        have hpre : internalDump cfg x (Option.some p)
              ⟨b ++ (buf ++ indentBytes ind), ind⟩
            = prependResult b
                (internalDump cfg x (Option.some p) ⟨buf ++ indentBytes ind, ind⟩) :=
          (ih (sizeOf x) hx).1 x le_rfl (Option.some p) ⟨buf ++ indentBytes ind, ind⟩ b
        rw [List.append_assoc b buf (indentBytes ind), hpre]
        cases hres : internalDump cfg x (Option.some p)
            ⟨buf ++ indentBytes ind, ind⟩ with
        | ok st1 =>
            simp only [prependResult]
            have hpre2 : dumpArrayPretty cfg p rest
                  ⟨b ++ (st1.buffer ++ (if rest.isEmpty then [] else [44]) ++ [10]),
                   st1.indentation⟩
                = prependResult b (dumpArrayPretty cfg p rest
                    ⟨st1.buffer ++ (if rest.isEmpty then [] else [44]) ++ [10],
                     st1.indentation⟩) :=
              (ih (sizeOf rest) hrest).2.2.1 rest le_rfl p
                ⟨st1.buffer ++ (if rest.isEmpty then [] else [44]) ++ [10],
                 st1.indentation⟩ b
            rw [List.append_assoc b st1.buffer (if rest.isEmpty then [] else [44]),
                List.append_assoc b
                  (st1.buffer ++ (if rest.isEmpty then [] else [44])) [10]]
            exact hpre2
        | error e =>
            obtain ⟨exc, est⟩ := e
            simp [prependResult]
  · intro ms hsz p flag st b
    obtain ⟨buf, ind⟩ := st
    cases ms with
    | nil =>
        rw [dumpObjectCompact]
        conv_rhs => rw [dumpObjectCompact]
        simp [prependResult]
    | cons kv rest =>
        obtain ⟨k, v⟩ := kv
        have hk : sizeOf k < N := by
          have : sizeOf ((k, v) :: rest) = 1 + (1 + sizeOf k + sizeOf v) + sizeOf rest := by
            simp
          omega
        have hv : sizeOf v < N := by
          have : sizeOf ((k, v) :: rest) = 1 + (1 + sizeOf k + sizeOf v) + sizeOf rest := by
            simp
          omega
        have hrest : sizeOf rest < N := by
          have : sizeOf ((k, v) :: rest) = 1 + (1 + sizeOf k + sizeOf v) + sizeOf rest := by
            simp
          omega
        rw [dumpObjectCompact]
        conv_rhs => rw [dumpObjectCompact]
        have hstate : (if flag then (⟨b ++ buf, ind⟩ : DumpState)
              else ⟨b ++ buf ++ [44], ind⟩)
            = { (if flag then (⟨buf, ind⟩ : DumpState) else ⟨buf ++ [44], ind⟩) with
                buffer := b ++ (if flag then (⟨buf, ind⟩ : DumpState)
                  else ⟨buf ++ [44], ind⟩).buffer } := by
          cases flag <;> simp [List.append_assoc]
        have hpre : internalDump cfg k (Option.some p)
              { (if flag then (⟨buf, ind⟩ : DumpState) else ⟨buf ++ [44], ind⟩) with
                buffer := b ++ (if flag then (⟨buf, ind⟩ : DumpState)
                  else ⟨buf ++ [44], ind⟩).buffer }
            = prependResult b (internalDump cfg k (Option.some p)
                (if flag then (⟨buf, ind⟩ : DumpState) else ⟨buf ++ [44], ind⟩)) :=
          (ih (sizeOf k) hk).1 k le_rfl (Option.some p)
            (if flag then (⟨buf, ind⟩ : DumpState) else ⟨buf ++ [44], ind⟩) b
        rw [hstate, hpre]
        cases hresk : internalDump cfg k (Option.some p)
            (if flag then (⟨buf, ind⟩ : DumpState) else ⟨buf ++ [44], ind⟩) with
        | ok st1 =>
            simp only [prependResult]
            have hpre2 : internalDump cfg v (Option.some p)
                  ⟨b ++ (st1.buffer ++ [58]), st1.indentation⟩
                = prependResult b (internalDump cfg v (Option.some p)
                    ⟨st1.buffer ++ [58], st1.indentation⟩) :=
              (ih (sizeOf v) hv).1 v le_rfl (Option.some p)
                ⟨st1.buffer ++ [58], st1.indentation⟩ b
            rw [List.append_assoc b st1.buffer [58], hpre2]
            cases hresv : internalDump cfg v (Option.some p)
                ⟨st1.buffer ++ [58], st1.indentation⟩ with
            | ok st2 =>
                simp only [prependResult]
                exact (ih (sizeOf rest) hrest).2.2.2.1 rest le_rfl p false st2 b
            | error e =>
                obtain ⟨exc, est⟩ := e
                simp [prependResult]
        | error e =>
            obtain ⟨exc, est⟩ := e
            simp [prependResult]
  · intro ms hsz p st b
    obtain ⟨buf, ind⟩ := st
    cases ms with
    | nil =>
        rw [dumpObjectPretty]
        conv_rhs => rw [dumpObjectPretty]
        simp [prependResult]
    | cons kv rest =>
        obtain ⟨k, v⟩ := kv
        have hk : sizeOf k < N := by
          have : sizeOf ((k, v) :: rest) = 1 + (1 + sizeOf k + sizeOf v) + sizeOf rest := by
            simp
          omega
        have hv : sizeOf v < N := by
          have : sizeOf ((k, v) :: rest) = 1 + (1 + sizeOf k + sizeOf v) + sizeOf rest := by
            simp
          omega
        have hrest : sizeOf rest < N := by
          have : sizeOf ((k, v) :: rest) = 1 + (1 + sizeOf k + sizeOf v) + sizeOf rest := by
            simp
          omega
        rw [dumpObjectPretty]
        conv_rhs => rw [dumpObjectPretty]
        have hpre : internalDump cfg k (Option.some p)
              ⟨b ++ (buf ++ indentBytes ind), ind⟩
            = prependResult b
                (internalDump cfg k (Option.some p) ⟨buf ++ indentBytes ind, ind⟩) :=
          (ih (sizeOf k) hk).1 k le_rfl (Option.some p) ⟨buf ++ indentBytes ind, ind⟩ b
        rw [List.append_assoc b buf (indentBytes ind), hpre]
        cases hresk : internalDump cfg k (Option.some p)
            ⟨buf ++ indentBytes ind, ind⟩ with
        | ok st1 =>
            simp only [prependResult]
            have hpre2 : internalDump cfg v (Option.some p)
                  ⟨b ++ (st1.buffer ++ [32, 58, 32]), st1.indentation⟩
                = prependResult b (internalDump cfg v (Option.some p)
                    ⟨st1.buffer ++ [32, 58, 32], st1.indentation⟩) :=
              (ih (sizeOf v) hv).1 v le_rfl (Option.some p)
                ⟨st1.buffer ++ [32, 58, 32], st1.indentation⟩ b
            rw [List.append_assoc b st1.buffer [32, 58, 32], hpre2]
            cases hresv : internalDump cfg v (Option.some p)
                ⟨st1.buffer ++ [32, 58, 32], st1.indentation⟩ with
            | ok st2 =>
                simp only [prependResult]
                have hpre3 : dumpObjectPretty cfg p rest
                      ⟨b ++ (st2.buffer ++ (if rest.isEmpty then [] else [44]) ++ [10]),
                       st2.indentation⟩
                    = prependResult b (dumpObjectPretty cfg p rest
                        ⟨st2.buffer ++ (if rest.isEmpty then [] else [44]) ++ [10],
                         st2.indentation⟩) :=
                  (ih (sizeOf rest) hrest).2.2.2.2 rest le_rfl p
                    ⟨st2.buffer ++ (if rest.isEmpty then [] else [44]) ++ [10],
                     st2.indentation⟩ b
                rw [List.append_assoc b st2.buffer (if rest.isEmpty then [] else [44]),
                    List.append_assoc b
                      (st2.buffer ++ (if rest.isEmpty then [] else [44])) [10]]
                exact hpre3
            | error e =>
                obtain ⟨exc, est⟩ := e
                simp [prependResult]
        | error e =>
            obtain ⟨exc, est⟩ := e
            simp [prependResult]



theorem internalDump_pre (cfg : DumperConfig) (hcb : cfg.callback = Option.none)
    (slice : JValue) (parent : Option JValue) (st : DumpState) (b : List Nat) :
    internalDump cfg slice parent { st with buffer := b ++ st.buffer }
      = prependResult b (internalDump cfg slice parent st) :=
  (dumpPre cfg hcb (sizeOf slice)).1 slice le_rfl parent st b

theorem internalDump_ok_split (cfg : DumperConfig) (hcb : cfg.callback = Option.none)
    (slice : JValue) (parent : Option JValue) (buf : List Nat) (ind : Nat)
    (st' : DumpState) (h : internalDump cfg slice parent ⟨buf, ind⟩ = Except.ok st') :
    ∃ out, internalDump cfg slice parent ⟨[], ind⟩ = Except.ok ⟨out, ind⟩ ∧
      st' = ⟨buf ++ out, ind⟩ := by
  have hpre : internalDump cfg slice parent ⟨buf ++ [], ind⟩
      = prependResult buf (internalDump cfg slice parent ⟨[], ind⟩) :=
    internalDump_pre cfg hcb slice parent ⟨[], ind⟩ buf
  rw [List.append_nil] at hpre
  rw [h] at hpre
  cases hres : internalDump cfg slice parent ⟨[], ind⟩ with
  | ok s0 =>
      rw [hres] at hpre
      simp only [prependResult] at hpre
      have hind : s0.indentation = ind :=
        internalDump_ind cfg slice parent ⟨[], ind⟩ s0 hres
      obtain ⟨ob, oi⟩ := s0
      simp at hind
      subst hind
      refine ⟨ob, rfl, ?_⟩
      simp at hpre
      rw [hpre]
  | error e =>
      obtain ⟨exc, est⟩ := e
      rw [hres] at hpre
      simp [prependResult] at hpre

theorem isEmpty_eq_of_forall2 {α β : Type} {R : α → β → Prop} {l1 : List α} {l2 : List β}
    (h : List.Forall₂ R l1 l2) : l1.isEmpty = l2.isEmpty := by
  cases h <;> rfl

theorem joinSep_cons (sep : List Nat) (o : List Nat) (rest : List (List Nat)) :
    joinSep sep (o :: rest) = o ++ (rest.map (fun r => sep ++ r)).flatten := by
  induction rest generalizing o with
  | nil => simp [joinSep]
  | cons r t ih =>
      calc joinSep sep (o :: r :: t) = o ++ sep ++ joinSep sep (r :: t) := by
            rw [joinSep]
            simp
        _ = o ++ sep ++ (r ++ (t.map (fun x => sep ++ x)).flatten) := by rw [ih]
        _ = o ++ ((r :: t).map (fun x => sep ++ x)).flatten := by
            simp [List.append_assoc]

theorem dumpArrayCompact_spec (cfg : DumperConfig) (hcb : cfg.callback = Option.none)
    (p : JValue) :
    ∀ (xs : List JValue) (st st' : DumpState),
      dumpArrayCompact cfg p xs false st = Except.ok st' →
      ∃ outs : List (List Nat),
        List.Forall₂ (fun x out =>
          internalDump cfg x (Option.some p) ⟨[], st.indentation⟩
            = Except.ok ⟨out, st.indentation⟩) xs outs ∧
        st' = ⟨st.buffer ++ (outs.map (fun o => 44 :: o)).flatten, st.indentation⟩ := by
  intro xs
  induction xs with
  | nil =>
      intro st st' h
      rw [dumpArrayCompact] at h
      simp at h
      subst h
      exact ⟨[], List.Forall₂.nil, by simp⟩
  | cons x rest ih =>
      intro st st' h
      obtain ⟨buf, ind⟩ := st
      rw [dumpArrayCompact] at h
      simp only [Bool.false_eq_true, if_false] at h
      cases hres : internalDump cfg x (Option.some p) ⟨buf ++ [44], ind⟩ with
      | ok st1 =>
          rw [hres] at h
          obtain ⟨out0, hout0, hst1⟩ :=
            internalDump_ok_split cfg hcb x (Option.some p) (buf ++ [44]) ind st1 hres
          obtain ⟨outs, houts, hst'⟩ := ih st1 st' h
          subst hst1
          refine ⟨out0 :: outs, List.Forall₂.cons hout0 houts, ?_⟩
          rw [hst']
          simp [List.append_assoc]
      | error e =>
          rw [hres] at h
          exact absurd h (by simp)



theorem dumpArrayPretty_spec (cfg : DumperConfig) (hcb : cfg.callback = Option.none)
    (p : JValue) :
    ∀ (xs : List JValue) (st st' : DumpState),
      dumpArrayPretty cfg p xs st = Except.ok st' →
      ∃ outs : List (List Nat),
        List.Forall₂ (fun x out =>
          internalDump cfg x (Option.some p) ⟨[], st.indentation⟩
            = Except.ok ⟨out, st.indentation⟩) xs outs ∧
        st' = ⟨st.buffer ++ prettyItems st.indentation outs, st.indentation⟩ := by
  intro xs
  induction xs with
  | nil =>
      intro st st' h
      rw [dumpArrayPretty] at h
      simp at h
      subst h
      exact ⟨[], List.Forall₂.nil, by simp [prettyItems]⟩
  | cons x rest ih =>
      intro st st' h
      obtain ⟨buf, ind⟩ := st
      rw [dumpArrayPretty] at h
      cases hres : internalDump cfg x (Option.some p) ⟨buf ++ indentBytes ind, ind⟩ with
      | ok st1 =>
          rw [hres] at h
          obtain ⟨out0, hout0, hst1⟩ := internalDump_ok_split cfg hcb x (Option.some p)
            (buf ++ indentBytes ind) ind st1 hres
          subst hst1
          obtain ⟨outs, houts, hst'⟩ := ih
            ⟨(buf ++ indentBytes ind ++ out0) ++ (if rest.isEmpty then [] else [44]) ++ [10],
             ind⟩ st' h
          refine ⟨out0 :: outs, List.Forall₂.cons hout0 houts, ?_⟩
          rw [hst']
          have hemp : rest.isEmpty = outs.isEmpty := isEmpty_eq_of_forall2 houts
          simp [prettyItems, List.append_assoc, hemp]
      | error e =>
          rw [hres] at h
          exact absurd h (by simp)

theorem dumpObjectCompact_spec (cfg : DumperConfig) (hcb : cfg.callback = Option.none)
    (p : JValue) :
    ∀ (ms : List (JValue × JValue)) (st st' : DumpState),
      dumpObjectCompact cfg p ms false st = Except.ok st' →
      ∃ outs : List (List Nat × List Nat),
        List.Forall₂ (fun kv out =>
          internalDump cfg kv.1 (Option.some p) ⟨[], st.indentation⟩
            = Except.ok ⟨out.1, st.indentation⟩ ∧
          internalDump cfg kv.2 (Option.some p) ⟨[], st.indentation⟩
            = Except.ok ⟨out.2, st.indentation⟩) ms outs ∧
        st' = ⟨st.buffer ++
          (outs.map (fun o => 44 :: (o.1 ++ [58] ++ o.2))).flatten, st.indentation⟩ := by
  intro ms
  induction ms with
  | nil =>
      intro st st' h
      rw [dumpObjectCompact] at h
      simp at h
      subst h
      exact ⟨[], List.Forall₂.nil, by simp⟩
  | cons kv rest ih =>
      obtain ⟨k, v⟩ := kv
      intro st st' h
      obtain ⟨buf, ind⟩ := st
      rw [dumpObjectCompact] at h
      simp only [Bool.false_eq_true, if_false] at h
      cases hresk : internalDump cfg k (Option.some p) ⟨buf ++ [44], ind⟩ with
      | ok st1 =>
          rw [hresk] at h
          obtain ⟨outk, houtk, hst1⟩ := internalDump_ok_split cfg hcb k (Option.some p)
            (buf ++ [44]) ind st1 hresk
          subst hst1
          have hred : (match internalDump cfg v (Option.some p)
                ⟨(buf ++ [44] ++ outk) ++ [58], ind⟩ with
              | Except.ok st2 => dumpObjectCompact cfg p rest false st2
              | Except.error e => Except.error e) = Except.ok st' := h
          cases hresv : internalDump cfg v (Option.some p)
              ⟨(buf ++ [44] ++ outk) ++ [58], ind⟩ with
          | ok st2 =>
              rw [hresv] at hred
              obtain ⟨outv, houtv, hst2⟩ := internalDump_ok_split cfg hcb v (Option.some p)
                ((buf ++ [44] ++ outk) ++ [58]) ind st2 hresv
              subst hst2
              obtain ⟨outs, houts, hst'⟩ := ih
                ⟨(buf ++ [44] ++ outk) ++ [58] ++ outv, ind⟩ st' hred
              refine ⟨(outk, outv) :: outs, List.Forall₂.cons ⟨houtk, houtv⟩ houts, ?_⟩
              rw [hst']
              simp [List.append_assoc]
          | error e =>
              rw [hresv] at hred
              exact absurd hred (by simp)
      | error e =>
          rw [hresk] at h
          exact absurd h (by simp)

theorem dumpObjectPretty_spec (cfg : DumperConfig) (hcb : cfg.callback = Option.none)
    (p : JValue) :
    ∀ (ms : List (JValue × JValue)) (st st' : DumpState),
      dumpObjectPretty cfg p ms st = Except.ok st' →
      ∃ outs : List (List Nat × List Nat),
        List.Forall₂ (fun kv out =>
          internalDump cfg kv.1 (Option.some p) ⟨[], st.indentation⟩
            = Except.ok ⟨out.1, st.indentation⟩ ∧
          internalDump cfg kv.2 (Option.some p) ⟨[], st.indentation⟩
            = Except.ok ⟨out.2, st.indentation⟩) ms outs ∧
        st' = ⟨st.buffer ++ prettyItems st.indentation
          (outs.map (fun o => o.1 ++ [32, 58, 32] ++ o.2)), st.indentation⟩ := by
  intro ms
  induction ms with
  | nil =>
      intro st st' h
      rw [dumpObjectPretty] at h
      simp at h
      subst h
      exact ⟨[], List.Forall₂.nil, by simp [prettyItems]⟩
  | cons kv rest ih =>
      obtain ⟨k, v⟩ := kv
      intro st st' h
      obtain ⟨buf, ind⟩ := st
      rw [dumpObjectPretty] at h
      cases hresk : internalDump cfg k (Option.some p) ⟨buf ++ indentBytes ind, ind⟩ with
      | ok st1 =>
          rw [hresk] at h
          obtain ⟨outk, houtk, hst1⟩ := internalDump_ok_split cfg hcb k (Option.some p)
            (buf ++ indentBytes ind) ind st1 hresk
          subst hst1
          have hred : (match internalDump cfg v (Option.some p)
                ⟨(buf ++ indentBytes ind ++ outk) ++ [32, 58, 32], ind⟩ with
              | Except.ok st2 =>
                  dumpObjectPretty cfg p rest
                    { st2 with buffer :=
                        st2.buffer ++ (if rest.isEmpty then [] else [44]) ++ [10] }
              | Except.error e => Except.error e) = Except.ok st' := h
          cases hresv : internalDump cfg v (Option.some p)
              ⟨(buf ++ indentBytes ind ++ outk) ++ [32, 58, 32], ind⟩ with
          | ok st2 =>
              rw [hresv] at hred
              obtain ⟨outv, houtv, hst2⟩ := internalDump_ok_split cfg hcb v (Option.some p)
                ((buf ++ indentBytes ind ++ outk) ++ [32, 58, 32]) ind st2 hresv
              subst hst2
              obtain ⟨outs, houts, hst'⟩ := ih
                ⟨((buf ++ indentBytes ind ++ outk) ++ [32, 58, 32] ++ outv)
                    ++ (if rest.isEmpty then [] else [44]) ++ [10], ind⟩ st' hred
              refine ⟨(outk, outv) :: outs, List.Forall₂.cons ⟨houtk, houtv⟩ houts, ?_⟩
              rw [hst']
              have hemp : rest.isEmpty = outs.isEmpty := isEmpty_eq_of_forall2 houts
              have hemp2 : (outs.map (fun o => o.1 ++ [32, 58, 32] ++ o.2)).isEmpty
                  = outs.isEmpty := by
                cases outs <;> rfl
              simp [prettyItems, List.append_assoc, hemp, hemp2]
          | error e =>
              rw [hresv] at hred
              exact absurd hred (by simp)
      | error e =>
          rw [hresk] at h
          exact absurd h (by simp)



theorem dumpArrayCompact_spec_true (cfg : DumperConfig) (hcb : cfg.callback = Option.none)
    (p : JValue) (xs : List JValue) (st st' : DumpState)
    (h : dumpArrayCompact cfg p xs true st = Except.ok st') :
    ∃ outs : List (List Nat),
      List.Forall₂ (fun x out =>
        internalDump cfg x (Option.some p) ⟨[], st.indentation⟩
          = Except.ok ⟨out, st.indentation⟩) xs outs ∧
      st' = ⟨st.buffer ++ joinSep [44] outs, st.indentation⟩ := by
  cases xs with
  | nil =>
      rw [dumpArrayCompact] at h
      simp at h
      subst h
      exact ⟨[], List.Forall₂.nil, by simp [joinSep]⟩
  | cons x rest =>
      obtain ⟨buf, ind⟩ := st
      rw [dumpArrayCompact] at h
      simp only [if_pos] at h
      cases hres : internalDump cfg x (Option.some p) ⟨buf, ind⟩ with
      | ok st1 =>
          rw [hres] at h
          obtain ⟨out0, hout0, hst1⟩ := internalDump_ok_split cfg hcb x (Option.some p)
            buf ind st1 hres
          subst hst1
          obtain ⟨outs, houts, hst'⟩ :=
            dumpArrayCompact_spec cfg hcb p rest ⟨buf ++ out0, ind⟩ st' h
          refine ⟨out0 :: outs, List.Forall₂.cons hout0 houts, ?_⟩
          rw [hst', joinSep_cons]
          simp [List.append_assoc]
      | error e =>
          rw [hres] at h
          exact absurd h (by simp)

theorem dumpObjectCompact_spec_true (cfg : DumperConfig) (hcb : cfg.callback = Option.none)
    (p : JValue) (ms : List (JValue × JValue)) (st st' : DumpState)
    (h : dumpObjectCompact cfg p ms true st = Except.ok st') :
    ∃ outs : List (List Nat × List Nat),
      List.Forall₂ (fun kv out =>
        internalDump cfg kv.1 (Option.some p) ⟨[], st.indentation⟩
          = Except.ok ⟨out.1, st.indentation⟩ ∧
        internalDump cfg kv.2 (Option.some p) ⟨[], st.indentation⟩
          = Except.ok ⟨out.2, st.indentation⟩) ms outs ∧
      st' = ⟨st.buffer ++ joinSep [44] (outs.map (fun o => o.1 ++ [58] ++ o.2)),
             st.indentation⟩ := by
  cases ms with
  | nil =>
      rw [dumpObjectCompact] at h
      simp at h
      subst h
      exact ⟨[], List.Forall₂.nil, by simp [joinSep]⟩
  | cons kv rest =>
      obtain ⟨k, v⟩ := kv
      obtain ⟨buf, ind⟩ := st
      rw [dumpObjectCompact] at h
      simp only [if_pos] at h
      cases hresk : internalDump cfg k (Option.some p) ⟨buf, ind⟩ with
      | ok st1 =>
          rw [hresk] at h
          obtain ⟨outk, houtk, hst1⟩ := internalDump_ok_split cfg hcb k (Option.some p)
            buf ind st1 hresk
          subst hst1
          have hred : (match internalDump cfg v (Option.some p)
                ⟨(buf ++ outk) ++ [58], ind⟩ with
              | Except.ok st2 => dumpObjectCompact cfg p rest false st2
              | Except.error e => Except.error e) = Except.ok st' := h
          cases hresv : internalDump cfg v (Option.some p)
              ⟨(buf ++ outk) ++ [58], ind⟩ with
          | ok st2 =>
              rw [hresv] at hred
              obtain ⟨outv, houtv, hst2⟩ := internalDump_ok_split cfg hcb v (Option.some p)
                ((buf ++ outk) ++ [58]) ind st2 hresv
              subst hst2
              obtain ⟨outs, houts, hst'⟩ := dumpObjectCompact_spec cfg hcb p rest
                ⟨(buf ++ outk) ++ [58] ++ outv, ind⟩ st' hred
              refine ⟨(outk, outv) :: outs, List.Forall₂.cons ⟨houtk, houtv⟩ houts, ?_⟩
              rw [hst']
              rw [show ((outk, outv) :: outs).map (fun o => o.1 ++ [58] ++ o.2)
                  = (outk ++ [58] ++ outv) ::
                      outs.map (fun o => o.1 ++ [58] ++ o.2) from rfl,
                joinSep_cons]
              simp [List.append_assoc]
              rfl
          | error e =>
              rw [hresv] at hred
              exact absurd hred (by simp)
      | error e =>
          rw [hresk] at h
          exact absurd h (by simp)

theorem internalDump_array_compact (cfg : DumperConfig) (hcb : cfg.callback = Option.none)
    (hpp : cfg.prettyPrint = false) (xs : List JValue) (parent : Option JValue)
    (st st' : DumpState)
    (h : internalDump cfg (JValue.Array xs) parent st = Except.ok st') :
    ∃ outs : List (List Nat),
      List.Forall₂ (fun x out =>
        internalDump cfg x (Option.some (JValue.Array xs)) ⟨[], st.indentation⟩
          = Except.ok ⟨out, st.indentation⟩) xs outs ∧
      st' = ⟨st.buffer ++ [91] ++ joinSep [44] outs ++ [93], st.indentation⟩ := by
  obtain ⟨buf, ind⟩ := st
  rw [internalDump] at h
  simp only [hcb, cbStep, hpp] at h
  cases hloop : dumpArrayCompact cfg (JValue.Array xs) xs true ⟨buf ++ [91], ind⟩ with
  | ok st2 =>
      rw [hloop] at h
      simp at h
      subst h
      obtain ⟨outs, houts, hst2⟩ :=
        dumpArrayCompact_spec_true cfg hcb (JValue.Array xs) xs ⟨buf ++ [91], ind⟩ st2 hloop
      refine ⟨outs, houts, ?_⟩
      rw [hst2]
  | error e =>
      rw [hloop] at h
      exact absurd h (by simp)

theorem internalDump_array_pretty (cfg : DumperConfig) (hcb : cfg.callback = Option.none)
    (hpp : cfg.prettyPrint = true) (xs : List JValue) (parent : Option JValue)
    (st st' : DumpState)
    (h : internalDump cfg (JValue.Array xs) parent st = Except.ok st') :
    ∃ outs : List (List Nat),
      List.Forall₂ (fun x out =>
        internalDump cfg x (Option.some (JValue.Array xs)) ⟨[], st.indentation + 1⟩
          = Except.ok ⟨out, st.indentation + 1⟩) xs outs ∧
      st' = ⟨st.buffer ++ [91, 10] ++ prettyItems (st.indentation + 1) outs
          ++ indentBytes st.indentation ++ [93], st.indentation⟩ := by
  obtain ⟨buf, ind⟩ := st
  rw [internalDump] at h
  simp only [hcb, cbStep, hpp] at h
  cases hloop : dumpArrayPretty cfg (JValue.Array xs) xs ⟨buf ++ [91, 10], ind + 1⟩ with
  | ok st2 =>
      rw [hloop] at h
      simp at h
      subst h
      obtain ⟨outs, houts, hst2⟩ :=
        dumpArrayPretty_spec cfg hcb (JValue.Array xs) xs ⟨buf ++ [91, 10], ind + 1⟩ st2 hloop
      refine ⟨outs, houts, ?_⟩
      rw [hst2]
      simp [List.append_assoc]
  | error e =>
      rw [hloop] at h
      exact absurd h (by simp)

theorem internalDump_object_compact (cfg : DumperConfig) (hcb : cfg.callback = Option.none)
    (hpp : cfg.prettyPrint = false) (ms : List (JValue × JValue)) (parent : Option JValue)
    (st st' : DumpState)
    (h : internalDump cfg (JValue.Object ms) parent st = Except.ok st') :
    ∃ outs : List (List Nat × List Nat),
      List.Forall₂ (fun kv out =>
        internalDump cfg kv.1 (Option.some (JValue.Object ms)) ⟨[], st.indentation⟩
          = Except.ok ⟨out.1, st.indentation⟩ ∧
        internalDump cfg kv.2 (Option.some (JValue.Object ms)) ⟨[], st.indentation⟩
          = Except.ok ⟨out.2, st.indentation⟩) ms outs ∧
      st' = ⟨st.buffer ++ [123]
          ++ joinSep [44] (outs.map (fun o => o.1 ++ [58] ++ o.2)) ++ [125],
          st.indentation⟩ := by
  obtain ⟨buf, ind⟩ := st
  rw [internalDump] at h
  simp only [hcb, cbStep, hpp] at h
  cases hloop : dumpObjectCompact cfg (JValue.Object ms) ms true ⟨buf ++ [123], ind⟩ with
  | ok st2 =>
      rw [hloop] at h
      simp at h
      subst h
      obtain ⟨outs, houts, hst2⟩ :=
        dumpObjectCompact_spec_true cfg hcb (JValue.Object ms) ms
          ⟨buf ++ [123], ind⟩ st2 hloop
      refine ⟨outs, houts, ?_⟩
      rw [hst2]
  | error e =>
      rw [hloop] at h
      exact absurd h (by simp)

theorem internalDump_object_pretty (cfg : DumperConfig) (hcb : cfg.callback = Option.none)
    (hpp : cfg.prettyPrint = true) (ms : List (JValue × JValue)) (parent : Option JValue)
    (st st' : DumpState)
    (h : internalDump cfg (JValue.Object ms) parent st = Except.ok st') :
    ∃ outs : List (List Nat × List Nat),
      List.Forall₂ (fun kv out =>
        internalDump cfg kv.1 (Option.some (JValue.Object ms)) ⟨[], st.indentation + 1⟩
          = Except.ok ⟨out.1, st.indentation + 1⟩ ∧
        internalDump cfg kv.2 (Option.some (JValue.Object ms)) ⟨[], st.indentation + 1⟩
          = Except.ok ⟨out.2, st.indentation + 1⟩) ms outs ∧
      st' = ⟨st.buffer ++ [123, 10]
          ++ prettyItems (st.indentation + 1)
              (outs.map (fun o => o.1 ++ [32, 58, 32] ++ o.2))
          ++ indentBytes st.indentation ++ [125], st.indentation⟩ := by
  obtain ⟨buf, ind⟩ := st
  rw [internalDump] at h
  simp only [hcb, cbStep, hpp] at h
  cases hloop : dumpObjectPretty cfg (JValue.Object ms) ms ⟨buf ++ [123, 10], ind + 1⟩ with
  | ok st2 =>
      rw [hloop] at h
      simp at h
      subst h
      obtain ⟨outs, houts, hst2⟩ :=
        dumpObjectPretty_spec cfg hcb (JValue.Object ms) ms
          ⟨buf ++ [123, 10], ind + 1⟩ st2 hloop
      refine ⟨outs, houts, ?_⟩
      rw [hst2]
      simp [List.append_assoc]
  | error e =>
      rw [hloop] at h
      exact absurd h (by simp)



/-- C3: for every node routed to the unsupported-type policy (None, UTCDate,
Binary, MinKey, MaxKey, BCD, Custom, and any non-finite Double), strategy
StrategyNullify appends the literal null and StrategyFail raises
NoJsonEquivalent with the state unchanged (nothing appended for the
node). -/
theorem claim_C3 (cfg : DumperConfig) (node : JValue) (parent : Option JValue)
    (st : DumpState) (hcb : cfg.callback = Option.none)
    (hu : isUnsupported node = true) :
    (cfg.strategy = UnsupportedTypeStrategy.StrategyNullify →
      internalDump cfg node parent st
        = Except.ok { st with buffer := st.buffer ++ [110, 117, 108, 108] }) ∧
    (cfg.strategy = UnsupportedTypeStrategy.StrategyFail →
      internalDump cfg node parent st
        = Except.error (JasonException.NoJsonEquivalent, st)) := by
  constructor <;> intro hs <;>
    cases node <;> simp [isUnsupported] at hu <;>
      first
        | (subst hu; rw [internalDump]; simp [cbStep, hcb, handleUnsupportedType, hs])
        | (rw [internalDump]; simp [cbStep, hcb, handleUnsupportedType, hs])

/-- Witness for C3 at a UTCDate node under both strategies. -/
theorem claim_C3_witness :
    (internalDump cfgCompactNullify JValue.UTCDate Option.none ⟨[], 0⟩
      = Except.ok ⟨[] ++ [110, 117, 108, 108], 0⟩) ∧
    (internalDump cfgCompactFail JValue.UTCDate Option.none ⟨[], 0⟩
      = Except.error (JasonException.NoJsonEquivalent, ⟨[], 0⟩)) :=
  ⟨(claim_C3 cfgCompactNullify JValue.UTCDate Option.none ⟨[], 0⟩ rfl rfl).1 rfl,
   (claim_C3 cfgCompactFail JValue.UTCDate Option.none ⟨[], 0⟩ rfl rfl).2 rfl⟩

/-- C6: for arrays and objects, compact mode emits the children in storage
order inside brackets with a comma between consecutive elements and a bare
colon between key and value and no other bytes; pretty mode emits each
element on its own line indented two spaces per nesting level, separates
keys from values with space-colon-space, puts a comma after every element
but the last, a newline before the closing bracket, and indents the closing
bracket at the parent's level.  Child outputs are characterised by dumping
the child from an empty buffer at the appropriate level. -/
theorem claim_C6 (cfg : DumperConfig) (hcb : cfg.callback = Option.none) :
    (cfg.prettyPrint = false → ∀ xs parent st st',
      internalDump cfg (JValue.Array xs) parent st = Except.ok st' →
      ∃ outs : List (List Nat),
        List.Forall₂ (fun x out =>
          internalDump cfg x (Option.some (JValue.Array xs)) ⟨[], st.indentation⟩
            = Except.ok ⟨out, st.indentation⟩) xs outs ∧
        st' = ⟨st.buffer ++ [91] ++ joinSep [44] outs ++ [93], st.indentation⟩) ∧
    (cfg.prettyPrint = true → ∀ xs parent st st',
      internalDump cfg (JValue.Array xs) parent st = Except.ok st' →
      ∃ outs : List (List Nat),
        List.Forall₂ (fun x out =>
          internalDump cfg x (Option.some (JValue.Array xs)) ⟨[], st.indentation + 1⟩
            = Except.ok ⟨out, st.indentation + 1⟩) xs outs ∧
        st' = ⟨st.buffer ++ [91, 10] ++ prettyItems (st.indentation + 1) outs
            ++ indentBytes st.indentation ++ [93], st.indentation⟩) ∧
    (cfg.prettyPrint = false → ∀ ms parent st st',
      internalDump cfg (JValue.Object ms) parent st = Except.ok st' →
      ∃ outs : List (List Nat × List Nat),
        List.Forall₂ (fun kv out =>
          internalDump cfg kv.1 (Option.some (JValue.Object ms)) ⟨[], st.indentation⟩
            = Except.ok ⟨out.1, st.indentation⟩ ∧
          internalDump cfg kv.2 (Option.some (JValue.Object ms)) ⟨[], st.indentation⟩
            = Except.ok ⟨out.2, st.indentation⟩) ms outs ∧
        st' = ⟨st.buffer ++ [123]
            ++ joinSep [44] (outs.map (fun o => o.1 ++ [58] ++ o.2)) ++ [125],
            st.indentation⟩) ∧
    (cfg.prettyPrint = true → ∀ ms parent st st',
      internalDump cfg (JValue.Object ms) parent st = Except.ok st' →
      ∃ outs : List (List Nat × List Nat),
        List.Forall₂ (fun kv out =>
          internalDump cfg kv.1 (Option.some (JValue.Object ms)) ⟨[], st.indentation + 1⟩
            = Except.ok ⟨out.1, st.indentation + 1⟩ ∧
          internalDump cfg kv.2 (Option.some (JValue.Object ms)) ⟨[], st.indentation + 1⟩
            = Except.ok ⟨out.2, st.indentation + 1⟩) ms outs ∧
        st' = ⟨st.buffer ++ [123, 10]
            ++ prettyItems (st.indentation + 1)
                (outs.map (fun o => o.1 ++ [32, 58, 32] ++ o.2))
            ++ indentBytes st.indentation ++ [125], st.indentation⟩) :=
  ⟨fun hpp xs parent st st' h =>
     internalDump_array_compact cfg hcb hpp xs parent st st' h,
   fun hpp xs parent st st' h =>
     internalDump_array_pretty cfg hcb hpp xs parent st st' h,
   fun hpp ms parent st st' h =>
     internalDump_object_compact cfg hcb hpp ms parent st st' h,
   fun hpp ms parent st st' h =>
     internalDump_object_pretty cfg hcb hpp ms parent st st' h⟩

/-- Witness for C6: the compact dump of Array([1, 2]) is the five bytes of
the text with brackets, the two digits and the comma. -/
theorem claim_C6_witness :
    ∃ outs : List (List Nat),
      List.Forall₂ (fun x out => internalDump cfgCompactFail x
          (Option.some (JValue.Array [JValue.SmallInt 1, JValue.SmallInt 2])) ⟨[], 0⟩
            = Except.ok ⟨out, 0⟩)
        [JValue.SmallInt 1, JValue.SmallInt 2] outs ∧
      (⟨[91, 49, 44, 50, 93], 0⟩ : DumpState)
        = ⟨[] ++ [91] ++ joinSep [44] outs ++ [93], 0⟩ :=
  (claim_C6 cfgCompactFail rfl).1 rfl [JValue.SmallInt 1, JValue.SmallInt 2]
    Option.none ⟨[], 0⟩ ⟨[91, 49, 44, 50, 93], 0⟩
    (by rw [internalDump]
        simp +decide [cbStep, dumpArrayCompact, internalDump, dumpInteger,
          dumpSmallIntBody, cfgCompactFail])

/-- C8: when a callback is set and returns true for a node, the engine
appends nothing for the node beyond what the hook itself wrote to the
buffer, and the indentation state is unchanged. -/
theorem claim_C8 (cfg : DumperConfig) (cb : JasonCallback) (node : JValue)
    (parent : Option JValue) (st : DumpState) (out : List Nat)
    (hcb : cfg.callback = Option.some cb)
    (hcall : cb st.buffer node parent = (out, true)) :
    internalDump cfg node parent st = Except.ok { st with buffer := out } := by
  rw [internalDump]
  simp [cbStep, hcb, hcall]

/-- Witness for C8 with a hook that appends the byte 120 and reports the
node handled. -/
theorem claim_C8_witness :
    internalDump cfgHook JValue.Null Option.none ⟨[], 0⟩ = Except.ok ⟨[120], 0⟩ := by
  have h := claim_C8 cfgHook (fun b _ _ => (b ++ [120], true)) JValue.Null Option.none
    ⟨[], 0⟩ ([] ++ [120]) rfl rfl
  simpa using h

/-- C9: for every array or object node dumped to completion without error,
the indentation depth after the node equals its value before the node,
whatever the layout mode or callback. -/
theorem claim_C9 (cfg : DumperConfig) :
    (∀ (xs : List JValue) (parent : Option JValue) (st st' : DumpState),
      internalDump cfg (JValue.Array xs) parent st = Except.ok st' →
        st'.indentation = st.indentation) ∧
    (∀ (ms : List (JValue × JValue)) (parent : Option JValue) (st st' : DumpState),
      internalDump cfg (JValue.Object ms) parent st = Except.ok st' →
        st'.indentation = st.indentation) :=
  ⟨fun xs parent st st' h => internalDump_ind cfg (JValue.Array xs) parent st st' h,
   fun ms parent st st' h => internalDump_ind cfg (JValue.Object ms) parent st st' h⟩

/-- Witness for C9 at the empty array in compact mode. -/
theorem claim_C9_witness :
    (DumpState.mk [91, 93] 0).indentation = (DumpState.mk [] 0).indentation :=
  (claim_C9 cfgCompactFail).1 [] Option.none ⟨[], 0⟩ ⟨[91, 93], 0⟩
    (by rw [internalDump]
        simp +decide [cbStep, dumpArrayCompact, cfgCompactFail])

/-- C10: dumping an External node emits nothing for the wrapper itself: it
equals dumping the referenced value with the parent argument reset to
absent. -/
theorem claim_C10 (cfg : DumperConfig) (v : JValue) (parent : Option JValue)
    (st : DumpState) (hcb : cfg.callback = Option.none) :
    internalDump cfg (JValue.External v) parent st
      = internalDump cfg v Option.none st := by
  conv_lhs => rw [internalDump]
  simp [cbStep, hcb]

/-- Witness for C10 at an External wrapper around Null. -/
theorem claim_C10_witness :
    internalDump cfgCompactFail (JValue.External JValue.Null) Option.none ⟨[], 0⟩
      = internalDump cfgCompactFail JValue.Null Option.none ⟨[], 0⟩ :=
  claim_C10 cfgCompactFail JValue.Null Option.none ⟨[], 0⟩ rfl

end JasonVerify
